import Mathlib

set_option autoImplicit false

/-!
Verification development for the notebooklm-tools content pipeline.

The repository routes (hackernews feed resolution, the llms.txt
documentation resolver with its generation pipeline, and the GitHub
repository bundler) are shallowly embedded as pure Lean functions.
External effects (HTTP fetches, the RSS parser, the html-to-text
converter, Readability, Firecrawl, OpenRouter) are modelled as oracle
values carried by explicit world records; each resolver consumes the
world and returns a structured result together with the ordered trace
of outbound calls it performed.

JavaScript string primitives are modelled at the level of Unicode
scalar values (Lean Char).  The Unicode-table-driven operations
(String.prototype.toLowerCase, String.prototype.normalize with NFD,
and the regex classes of Letter and Number) are modelled faithfully on
the code points exercised in this development: ASCII, the Latin-1 and
Latin Extended letters, Greek, CJK ideographs and combining
diacritical marks; outside that coverage the functions act as the
identity or return false, and no theorem below depends on a code
point outside the coverage.
-/

namespace NBLM

/-- Whitespace test of the JS regex class backslash-s and of the
trimming performed by parseInt and String.prototype.trim, restricted
to the common whitespace code points. -/
def isJsSpace (c : Char) : Bool :=
  c = ' ' || c = '\t' || c = '\n' || c = '\r' || c = '\x0b' || c = '\x0c' || c = ' '

/-- Model of String.prototype.trim on a character list. -/
def trimL (l : List Char) : List Char :=
  ((l.dropWhile isJsSpace).reverse.dropWhile isJsSpace).reverse

/-- Model of String.prototype.trim. -/
def jsTrim (s : String) : String := String.mk (trimL s.data)

/-- Decimal value of a digit run (most significant first). -/
def digitsVal (l : List Char) : Nat :=
  l.foldl (fun acc c => acc * 10 + (c.toNat - '0'.toNat)) 0

/-- Model of Number.parseInt with radix 10: skip leading whitespace,
read an optional sign, then the longest ASCII digit run; the result is
none (NaN) when that run is empty. -/
def jsParseInt (s : String) : Option Int :=
  let l := s.data.dropWhile isJsSpace
  let signAndRest : Bool × List Char :=
    match l with
    | '-' :: r => (true, r)
    | '+' :: r => (false, r)
    | _ => (false, l)
  let ds := signAndRest.2.takeWhile Char.isDigit
  if ds.isEmpty then none
  else some ((if signAndRest.1 then (-1 : Int) else 1) * (digitsVal ds : Int))

/-- Model of String.prototype.split with a single-character separator:
splitting the empty string yields one empty group, and a separator at
either end yields an empty group there, as in JS. -/
def splitChar (sep : Char) : List Char → List (List Char)
  | [] => [[]]
  | c :: r =>
    match splitChar sep r with
    | [] => [[]]
    | g :: gs => if c = sep then [] :: g :: gs else (c :: g) :: gs

mutual
/-- Word counter implementing text.split(regex of one-or-more
whitespace).filter(Boolean).length: the number of maximal runs of
non-whitespace characters. -/
def countWordsL : List Char → Nat
  | [] => 0
  | c :: r => if isJsSpace c then countWordsL r else 1 + countSkipWord r

/-- Helper of countWordsL that is scanning inside a word. -/
def countSkipWord : List Char → Nat
  | [] => 0
  | c :: r => if isJsSpace c then countWordsL r else countSkipWord r
end

/-- Word count of a string, as in the countWords helper of the routes. -/
def countWords (s : String) : Nat := countWordsL s.data

/-- Model of String.prototype.toLowerCase on the covered code points:
ASCII, the Greek capitals (simple mapping, the context-sensitive
final-sigma rule is outside the coverage) and the Kelvin sign; other
code points are left unchanged. -/
def jsToLower (c : Char) : Char :=
  if 'A' ≤ c ∧ c ≤ 'Z' then Char.ofNat (c.toNat + 32)
  else if 0x391 ≤ c.toNat ∧ c.toNat ≤ 0x3A9 ∧ c.toNat ≠ 0x3A2 then Char.ofNat (c.toNat + 32)
  else if c.toNat = 0x212A then 'k'
  else c

/-- Canonical decomposition (normalize with NFD) of one code point,
restricted to the covered set: a few precomposed Latin letters
decompose into base letter plus combining mark; ASCII, Greek small
letters and CJK ideographs are NFD-invariant and map to themselves. -/
def nfdChar (c : Char) : List Char :=
  if c = 'é' then ['e', '́']
  else if c = 'ü' then ['u', '̈']
  else if c = 'ñ' then ['n', '̃']
  else [c]

/-- Model of String.prototype.normalize with form NFD on the covered
code points. -/
def nfd (l : List Char) : List Char := l.flatMap nfdChar

/-- Membership test of the regex class of Unicode Letter or Number on
the covered code points: ASCII alphanumerics, Latin-1 and Latin
Extended letters, Greek letters and CJK ideographs; combining marks
and all punctuation are outside the class. -/
def isLN (c : Char) : Bool :=
  let n := c.toNat
  decide ((97 ≤ n ∧ n ≤ 122) ∨ (65 ≤ n ∧ n ≤ 90) ∨ (48 ≤ n ∧ n ≤ 57) ∨
    (0xC0 ≤ n ∧ n ≤ 0x24F ∧ n ≠ 0xD7 ∧ n ≠ 0xF7) ∨
    (0x386 ≤ n ∧ n ≤ 0x3CE ∧ n ≠ 0x387 ∧ n ≠ 0x38B ∧ n ≠ 0x38D ∧ n ≠ 0x3A2) ∨
    (0x4E00 ≤ n ∧ n ≤ 0x9FFF))

mutual
/-- One global regex replace of maximal runs of characters satisfying
p by the single character rep, as in str.replace(runs-regex, rep). -/
def replRun (p : Char → Bool) (rep : Char) : List Char → List Char
  | [] => []
  | c :: r => if p c then rep :: replSkip p rep r else c :: replRun p rep r

/-- Helper of replRun that is consuming the remainder of a run. -/
def replSkip (p : Char → Bool) (rep : Char) : List Char → List Char
  | [] => []
  | c :: r => if p c then replSkip p rep r else c :: replRun p rep r
end

/-- Model of str.replace(regex matching one leading or one trailing
hyphen with the global flag, empty string): at most one hyphen is
removed from each end. -/
def stripDashes (l : List Char) : List Char :=
  let a := if l.head? = some '-' then l.tail else l
  if a.getLast? = some '-' then a.dropLast else a

/-- The shared slug pipeline of slugify and createEntryId in the
hackernews route: lowercase, NFD-normalize, replace runs of characters
that are neither Letter nor Number by a hyphen, collapse hyphen runs,
strip a leading and a trailing hyphen. -/
def slugCoreL (l : List Char) : List Char :=
  stripDashes (replRun (fun c => c = '-') '-' (replRun (fun c => !(isLN c)) '-' (nfd (l.map jsToLower))))

/-- Model of the slugify helper of the hackernews route. -/
def slugify (s : String) : String :=
  let normalized := slugCoreL s.data
  if normalized.length > 0 then String.mk normalized else "notebooklm-source"

/-- Model of index.toString().padStart(2, "0"). -/
def padIndexL (i : Nat) : List Char :=
  let s := Nat.toDigits 10 i
  if s.length < 2 then '0' :: s else s

/-- Model of the createEntryId helper of the hackernews route, on
character lists. -/
def createEntryIdL (i : Nat) (t : List Char) : List Char :=
  let safeTitle := slugCoreL t
  let short := safeTitle.take 48
  padIndexL i ++ '-' :: (if short.isEmpty then "entry".data else short)

/-- Model of the createEntryId helper of the hackernews route. -/
def createEntryId (i : Nat) (t : String) : String := String.mk (createEntryIdL i t.data)

/-- ASCII lowercase letter or ASCII digit: the character class of the
slug regex of the specification. -/
def isAsciiLowerDigit (c : Char) : Bool :=
  decide (('a' ≤ c ∧ c ≤ 'z') ∨ ('0' ≤ c ∧ c ≤ '9'))

/-- Matcher for the regex anchored-start [a-z0-9]+ then
(hyphen [a-z0-9]+)* anchored-end: splitting on hyphens must yield
only nonempty all-alphanumeric groups. -/
def slugRegexMatchesL (l : List Char) : Bool :=
  (splitChar '-' l).all (fun g => !g.isEmpty && g.all isAsciiLowerDigit)

/-- String form of slugRegexMatchesL. -/
def slugRegexMatches (s : String) : Bool := slugRegexMatchesL s.data

/-- Model of Response.ok: the HTTP status is in the 2xx range. -/
def respOk (status : Nat) : Bool := decide (200 ≤ status ∧ status ≤ 299)

/-- Model of Array.prototype.slice(0, e) on lists: a negative end
index counts from the end of the array. -/
def jsSliceTo {α : Type} (xs : List α) (e : Int) : List α :=
  xs.take (if e < 0 then ((xs.length : Int) + e).toNat else e.toNat)

/-! ## Hacker News feed resolver (src/app/routes/hackernews.tsx) -/

/-- The fixed feed URL of the hackernews route. -/
def HACKERNEWS_FEED : String := "https://hnrss.org/frontpage"

/-- The MAX_LIMIT constant of the hackernews route. -/
def MAX_LIMIT : Int := 40

/-- One item of the parsed syndication feed, as delivered by
rss-parser with the custom fields of the route (content:encoded mapped
to contentEncoded, summary, isoDate).  contentEncodedRaw models the
bracketed content:encoded key read by the fallback chain. -/
structure RssItem where
  title : Option String
  link : Option String
  contentEncoded : Option String
  contentEncodedRaw : Option String
  content : Option String
  summary : Option String
  isoDate : Option String
  pubDate : Option String
deriving DecidableEq

/-- The parsed feed document returned by rss-parser.  items is
optional because the route guards with Array.isArray. -/
structure ParsedFeed where
  title : Option String
  link : Option String
  description : Option String
  items : Option (List RssItem)
deriving DecidableEq

/-- What JSDOM plus Readability did with the response body. -/
inductive ArticleDoc where
  /-- Constructing or parsing the document threw. -/
  | parseThrow : ArticleDoc
  /-- reader.parse() returned: none when the heuristic found no
  article, some text when it produced an article whose textContent is
  the given string. -/
  | parsed (article : Option String) : ArticleDoc

/-- Outcome of the article GET plus Readability parse inside
fetchArticleContent, as provided by the outside world. -/
inductive ArticleOutcome where
  /-- The fetch itself threw (network failure). -/
  | netError : ArticleOutcome
  /-- The fetch returned a response with the given status; doc is what
  happened after reading the body. -/
  | httpResponse (status : Nat) (doc : ArticleDoc) : ArticleOutcome

/-- The body of fetchArticleContent without its surrounding try/catch:
an error value models an exception escaping the body. -/
def fetchArticleContentE (o : ArticleOutcome) : Except String (Option String) :=
  match o with
  | .netError => .error "fetch threw"
  | .httpResponse status doc =>
    if !respOk status then .ok none
    else
      match doc with
      | .parseThrow => .error "parse threw"
      | .parsed article => .ok article

/-- Model of fetchArticleContent: the try/catch around the body turns
every escaping exception into null. -/
def fetchArticleContent (o : ArticleOutcome) : Option String :=
  match fetchArticleContentE o with
  | .ok v => v
  | .error _ => none

/-- The world an hackernews action run interacts with: the feed fetch,
the rss parser, the html-to-text converter, the per-URL article
extraction oracle, and the clock. -/
structure HNWorld where
  /-- Whether new URL applied to the configured feed URL succeeds. -/
  urlValid : Bool
  /-- HTTP status of the feed GET. -/
  feedStatus : Nat
  /-- Body text of the feed response. -/
  feedBody : String
  /-- rss-parser on a body: none models a parse exception. -/
  parse : String → Option ParsedFeed
  /-- The html-to-text convert call with the fixed option set. -/
  convert : String → String
  /-- Article extraction outcome per article URL. -/
  article : String → ArticleOutcome
  /-- Hostname of the feed URL (used as title fallback). -/
  hostName : String
  /-- The ISO timestamp taken at archive build time. -/
  nowIso : String

/-- One resolved feed entry (the FeedEntry shape of the route). -/
structure HNEntry where
  id : String
  title : String
  url : String
  publishedAt : Option String
  textContent : String
deriving DecidableEq

/-- The placeholder body substituted when both content candidates are
empty. -/
def NO_BODY_PLACEHOLDER : String := "(No body content provided by the feed)"

/-- Title derivation of one item: the trimmed item title when it is a
nonblank string, otherwise the positional fallback. -/
def entryTitle (n : Nat) (t : Option String) : String :=
  match t with
  | some s => if jsTrim s ≠ "" then jsTrim s else "Entry " ++ toString n
  | none => "Entry " ++ toString n

/-- URL derivation of one item: the item link when it is a nonblank
string, otherwise the feed link, otherwise the feed URL itself. -/
def entryUrl (feedLink : Option String) (feedHref : String) (l : Option String) : String :=
  match l with
  | some s => if jsTrim s ≠ "" then s else feedLink.getD feedHref
  | none => feedLink.getD feedHref

/-- The nullish-coalescing chain selecting the richest available body
field of an item. -/
def rawHtmlOf (item : RssItem) : String :=
  (item.contentEncoded <|> item.contentEncodedRaw <|> item.content <|> item.summary).getD ""

/-- Resolution of one sliced item at 1-based position n into an entry:
normalized feed body, article extraction preferred via the
nullish-coalescing operator, placeholder only when the extraction
returned null and the normalized body is empty. -/
def mkEntry (w : HNWorld) (feedLink : Option String) (feedHref : String)
    (n : Nat) (item : RssItem) : HNEntry :=
  let title := entryTitle n item.title
  let url := entryUrl feedLink feedHref item.link
  let textContent := jsTrim (w.convert (rawHtmlOf item))
  let articleContent := fetchArticleContent (w.article url)
  { id := createEntryId n title
    title := title
    url := url
    publishedAt := item.isoDate <|> item.pubDate
    textContent :=
      match articleContent with
      | some s => s
      | none => if textContent ≠ "" then textContent else NO_BODY_PLACEHOLDER }

/-- The sequential per-item loop of the action, carrying the running
0-based index of the enumeration (entries use index plus one). -/
def buildEntries (w : HNWorld) (feedLink : Option String) (feedHref : String) :
    Nat → List RssItem → List HNEntry
  | _, [] => []
  | n, item :: rest =>
    mkEntry w feedLink feedHref (n + 1) item :: buildEntries w feedLink feedHref (n + 1) rest

/-- One manifest entry of the bundle manifest. -/
structure HNManifestEntry where
  id : String
  title : String
  url : String
  publishedAt : Option String
  wordCount : Nat
  file : String
deriving DecidableEq

/-- The manifest.json document of the bundle. -/
structure HNManifest where
  schemaUri : String
  generatedAt : String
  feedTitle : String
  feedDescription : Option String
  feedUrl : String
  entries : List HNManifestEntry
deriving DecidableEq

/-- One record of sources.json. -/
structure HNSourceRec where
  id : String
  title : String
  url : String
  publishedAt : Option String
  text : String
deriving DecidableEq

/-- Content of one file of the bundle, kept structured rather than
JSON-serialized. -/
inductive HNFileContent where
  | manifestDoc (m : HNManifest) : HNFileContent
  | textDoc (body : String) : HNFileContent
  | sourcesDoc (version : Nat) (createdAt : String) (entries : List HNSourceRec) : HNFileContent
deriving DecidableEq

/-- One named file of the bundle archive. -/
structure HNArchiveFile where
  name : String
  content : HNFileContent
deriving DecidableEq

/-- The markdown file name of one entry. -/
def mdName (id : String) : String := String.mk (id.data ++ ['.', 'm', 'd'])

/-- The heading block plus body of one entry file; the trailing empty
header element of the source is removed by its filter(Boolean). -/
def entryFileBody (e : HNEntry) : String :=
  let headerLines :=
    ["# " ++ e.title] ++
    (match e.publishedAt with
     | some p => ["Published: " ++ p]
     | none => []) ++
    ["Source: " ++ e.url]
  String.intercalate "\n" headerLines ++ "\n" ++ e.textContent ++ "\n"

/-- The manifest entry derived from one resolved entry. -/
def manifestEntryOf (e : HNEntry) : HNManifestEntry :=
  { id := e.id
    title := e.title
    url := e.url
    publishedAt := e.publishedAt
    wordCount := countWords e.textContent
    file := mdName e.id }

/-- The per-entry markdown file of the bundle. -/
def entryArchiveFile (e : HNEntry) : HNArchiveFile :=
  { name := mdName e.id, content := HNFileContent.textDoc (entryFileBody e) }

/-- The sources.json record of one entry. -/
def sourceRecOf (e : HNEntry) : HNSourceRec :=
  { id := e.id, title := e.title, url := e.url,
    publishedAt := e.publishedAt, text := e.textContent }

/-- Model of buildArchive of the hackernews route: one manifest.json,
one markdown file per entry, one sources.json, plus the download file
name derived from the slugified feed title and the date. -/
def buildArchive (feedTitle : String) (feedDescription : Option String) (feedUrl : String)
    (entries : List HNEntry) (nowIso : String) : List HNArchiveFile × String :=
  let manifest : HNManifest :=
    { schemaUri := "https://notebooklm.google.com/schemas/source-bundle.v1.json"
      generatedAt := nowIso
      feedTitle := feedTitle
      feedDescription := feedDescription
      feedUrl := feedUrl
      entries := entries.map manifestEntryOf }
  let files :=
    { name := "manifest.json", content := HNFileContent.manifestDoc manifest } ::
    entries.map entryArchiveFile ++
    [{ name := "sources.json",
       content := HNFileContent.sourcesDoc 1 nowIso (entries.map sourceRecOf) }]
  (files, String.mk ((slugify feedTitle).data ++ '-' :: nowIso.data.take 10) ++ ".zip")

/-- Summary row of one entry in the JSON payload. -/
structure HNEntrySummary where
  id : String
  title : String
  url : String
  publishedAt : Option String
  wordCount : Nat
  summary : String
deriving DecidableEq

/-- The success payload of the action. -/
structure HNPayload where
  archiveFiles : List HNArchiveFile
  fileName : String
  feedTitle : String
  feedDescription : Option String
  feedUrl : String
  totalEntries : Nat
  extractedEntries : Nat
  entries : List HNEntry
  summaries : List HNEntrySummary
deriving DecidableEq

/-- Result of one action run, one constructor per terminal branch. -/
inductive HNResult where
  /-- The configured feed URL failed URL parsing (status 500). -/
  | invalidUrl : HNResult
  /-- The feed GET returned a non-2xx status (status 502, reporting
  the upstream status). -/
  | upstream (status : Nat) : HNResult
  /-- The feed body failed XML parsing (status 422). -/
  | parseFailed : HNResult
  /-- The parsed feed had zero items (status 404). -/
  | emptyFeed : HNResult
  /-- Success (status 200). -/
  | success (payload : HNPayload) : HNResult
deriving DecidableEq

/-- The HTTP status attached to each result branch. -/
def hnStatus : HNResult → Nat
  | .invalidUrl => 500
  | .upstream _ => 502
  | .parseFailed => 422
  | .emptyFeed => 404
  | .success _ => 200

/-- Outbound network events of one action run, in order. -/
inductive HNEvent where
  | feedFetch : HNEvent
  | articleFetch (url : String) : HNEvent
deriving DecidableEq

/-- The entries of a result, empty on the error branches. -/
def hnEntriesOf : HNResult → List HNEntry
  | .success p => p.entries
  | _ => []

/-- The effective item limit of the action: clamp into 1..MAX_LIMIT
when parseInt produced an integer, 15 otherwise.  A missing or
non-string form value parses as the empty string. -/
def hnLimit (limitRaw : Option String) : Int :=
  match jsParseInt (limitRaw.getD "") with
  | some p => min (max p 1) MAX_LIMIT
  | none => 15

/-- The feed title of the payload: the trimmed feed title when
present, the feed hostname otherwise. -/
def hnSourceTitle (w : HNWorld) (feed : ParsedFeed) : String :=
  match feed.title with
  | some t => jsTrim t
  | none => w.hostName

/-- The entry list resolved by the action from the sliced items. -/
def hnEntriesRun (w : HNWorld) (limitRaw : Option String) (feed : ParsedFeed) : List HNEntry :=
  buildEntries w feed.link HACKERNEWS_FEED 0
    ((feed.items.getD []).take (hnLimit limitRaw).toNat)

/-- The success payload of the action for a parsed feed. -/
def hnSuccessPayload (w : HNWorld) (limitRaw : Option String) (feed : ParsedFeed) : HNPayload :=
  let sourceTitle := hnSourceTitle w feed
  let entries := hnEntriesRun w limitRaw feed
  let archive := buildArchive sourceTitle feed.description
    (feed.link.getD HACKERNEWS_FEED) entries w.nowIso
  { archiveFiles := archive.1
    fileName := archive.2
    feedTitle := sourceTitle
    feedDescription := feed.description
    feedUrl := feed.link.getD HACKERNEWS_FEED
    totalEntries := (feed.items.getD []).length
    extractedEntries := entries.length
    entries := entries
    summaries := entries.map (fun e =>
      { id := e.id, title := e.title, url := e.url,
        publishedAt := e.publishedAt,
        wordCount := countWords e.textContent,
        summary := String.mk (e.textContent.data.take 320) }) }

/-- Model of the hackernews action: URL validation, feed GET, XML
parse, empty check, then the sequential entry loop and the archive
build.  Returns the result together with the trace of outbound
calls. -/
def hnAction (w : HNWorld) (limitRaw : Option String) : HNResult × List HNEvent :=
  if !w.urlValid then (.invalidUrl, [])
  else if !respOk w.feedStatus then (.upstream w.feedStatus, [.feedFetch])
  else
    match w.parse w.feedBody with
    | none => (.parseFailed, [.feedFetch])
    | some feed =>
      if (feed.items.getD []).isEmpty then (.emptyFeed, [.feedFetch])
      else
        (.success (hnSuccessPayload w limitRaw feed),
         .feedFetch :: (hnEntriesRun w limitRaw feed).map (fun e => .articleFetch e.url))

/-! ## Documentation resolver and generation pipeline (llmstxt route) -/

/-- Outcome of a text-file probe fetch. -/
inductive ProbeOutcome where
  /-- The fetch threw (network failure); the route catches it and
  falls through. -/
  | netError : ProbeOutcome
  /-- The fetch returned the given status and body. -/
  | response (status : Nat) (body : String) : ProbeOutcome
deriving DecidableEq

/-- Whether a probe found a usable document: 2xx status and a body
that is nonempty after trimming. -/
def probeSuccess (o : ProbeOutcome) : Bool :=
  match o with
  | .netError => false
  | .response status body => respOk status && !((trimL body.data).isEmpty)

/-- Outcome of the site-mapping POST. -/
inductive MapOutcome where
  /-- The fetch threw. -/
  | netError : MapOutcome
  /-- Response with a status; links is none when the response JSON
  lacked success or a links array. -/
  | http (status : Nat) (links : Option (List String)) : MapOutcome
deriving DecidableEq

/-- Model of mapWebsite: a thrown fetch propagates, a non-2xx status
throws, a malformed success payload degrades to the empty list. -/
def mapWebsite (o : MapOutcome) : Except String (List String) :=
  match o with
  | .netError => .error "fetch threw"
  | .http status links =>
    if !respOk status then .error ("Firecrawl map failed: " ++ toString status)
    else .ok (links.getD [])

/-- Outcome of the per-URL scrape POST. -/
inductive ScrapeOutcome where
  /-- The fetch threw; scrapeUrl catches it. -/
  | netError : ScrapeOutcome
  /-- Response with a status; payload is none when the response JSON
  lacked success or data, some md when data was present with the given
  optional markdown field. -/
  | http (status : Nat) (payload : Option (Option String)) : ScrapeOutcome
deriving DecidableEq

/-- Model of scrapeUrl: every failure becomes none; a success with a
missing markdown field becomes the empty string (markdown or-else
empty string in the source). -/
def scrapeUrl (o : ScrapeOutcome) : Option String :=
  match o with
  | .netError => none
  | .http status payload =>
    if !respOk status then none
    else
      match payload with
      | none => none
      | some md => some (md.getD "")

/-- The message content of the annotation response. -/
inductive AnnotateContent where
  /-- JSON.parse on the content threw. -/
  | unparseable : AnnotateContent
  /-- Parsed JSON object with its optional title and description
  fields. -/
  | parsed (title : Option String) (description : Option String) : AnnotateContent
deriving DecidableEq

/-- Outcome of the annotation POST. -/
inductive AnnotateOutcome where
  /-- The fetch threw; generateDescription catches it. -/
  | netError : AnnotateOutcome
  /-- Response with a status; content is none when the choices path
  was absent. -/
  | http (status : Nat) (content : Option AnnotateContent) : AnnotateOutcome
deriving DecidableEq

/-- The placeholder annotation pair. -/
def PLACEHOLDER_ANNOTATION : String × String := ("Page", "No description available")

/-- Model of generateDescription: every failure or malformed response
degrades to the placeholder pair; falsy (empty) title or description
fields also fall back field-wise. -/
def generateDescription (o : AnnotateOutcome) : String × String :=
  match o with
  | .netError => PLACEHOLDER_ANNOTATION
  | .http status content =>
    if !respOk status then PLACEHOLDER_ANNOTATION
    else
      match content with
      | none => PLACEHOLDER_ANNOTATION
      | some .unparseable => PLACEHOLDER_ANNOTATION
      | some (.parsed title description) =>
        ((if title.getD "" = "" then "Page" else title.getD ""),
         (if description.getD "" = "" then "No description available" else description.getD ""))

/-- The world a documentation-resolution run interacts with. -/
structure LlmsWorld where
  /-- Whether new URL applied to the trimmed site URL succeeds. -/
  urlValid : Bool
  /-- The GET of llms-full.txt at the site origin. -/
  fullProbe : ProbeOutcome
  /-- The GET of llms.txt at the site origin. -/
  shortProbe : ProbeOutcome
  /-- The site-mapping call. -/
  mapOutcome : MapOutcome
  /-- The scrape call per page URL. -/
  scrape : String → ScrapeOutcome
  /-- The annotation call per page URL. -/
  annotate : String → AnnotateOutcome
  /-- Origin of the parsed site URL. -/
  origin : String

/-- Outbound calls of a documentation-resolution run, in order. -/
inductive LlmsEvent where
  | probeFull : LlmsEvent
  | probeShort : LlmsEvent
  | mapCall : LlmsEvent
  | scrapeCall (url : String) : LlmsEvent
  | annotateCall (url : String) : LlmsEvent
deriving DecidableEq

/-- One processed page of the generation pipeline. -/
structure GenPage where
  url : String
  title : String
  description : String
  markdown : String
  index : Nat
deriving DecidableEq

/-- The value generateLLMsFullTxt resolves with; pages is the internal
results list, exposed so that the documents can be specified. -/
structure GenOut where
  llmsTxt : String
  llmsFullTxt : String
  processedCount : Nat
  pages : List GenPage
deriving DecidableEq

/-- The sequential scrape-and-annotate loop of the generation
pipeline: a page whose scrape returned null or empty markdown is
skipped silently; otherwise the page is annotated and kept. -/
def genLoop (w : LlmsWorld) : List String → Nat → List GenPage × List LlmsEvent
  | [], _ => ([], [])
  | url :: rest, i =>
    match scrapeUrl (w.scrape url) with
    | none =>
      let t := genLoop w rest (i + 1)
      (t.1, .scrapeCall url :: t.2)
    | some md =>
      if md = "" then
        let t := genLoop w rest (i + 1)
        (t.1, .scrapeCall url :: t.2)
      else
        let ann := generateDescription (w.annotate url)
        let t := genLoop w rest (i + 1)
        ({ url := url, title := ann.1, description := ann.2, markdown := md, index := i } :: t.1,
         .scrapeCall url :: .annotateCall url :: t.2)

/-- The link-list line of one page in the generated llms.txt. -/
def genTxtLine (p : GenPage) : String :=
  "- [" ++ p.title ++ "](" ++ p.url ++ "): " ++ p.description ++ "\n"

/-- The full-text section of one page in the generated llms-full.txt:
a heading with the title, the URL line, the markdown, a horizontal
rule. -/
def genFullSection (p : GenPage) : String :=
  "## " ++ p.title ++ "\n\nURL: " ++ p.url ++ "\n\n" ++ p.markdown ++ "\n\n---\n\n"

/-- Model of generateLLMsFullTxt: map the site, fail on zero URLs,
bound the URL list with slice, run the sequential loop, concatenate
the two documents, report the processed count. -/
def generateLLMsFullTxt (w : LlmsWorld) (siteUrl : String) (maxUrls : Int) :
    Except String GenOut × List LlmsEvent :=
  match mapWebsite w.mapOutcome with
  | .error e => (.error e, [.mapCall])
  | .ok urls =>
    if urls.isEmpty then (.error "No URLs found for the website", [.mapCall])
    else
      let limitedUrls := jsSliceTo urls maxUrls
      let t := genLoop w limitedUrls 0
      (.ok
        { llmsTxt := "# " ++ siteUrl ++ " llms.txt\n\n" ++ String.join (t.1.map genTxtLine)
          llmsFullTxt := "# " ++ siteUrl ++ " llms-full.txt\n\n" ++ String.join (t.1.map genFullSection)
          processedCount := t.1.length
          pages := t.1 },
       .mapCall :: t.2)

/-- The form fields of one documentation-resolution request; none
models a missing field. -/
structure LlmsRequest where
  siteUrl : Option String
  firecrawlApiKey : Option String
  openrouterApiKey : Option String
  maxUrls : Option String
deriving DecidableEq

/-- Whether both API credentials are present and nonblank. -/
def hasApiKeys (req : LlmsRequest) : Bool :=
  (match req.firecrawlApiKey with
   | some k => !((trimL k.data).isEmpty)
   | none => false) &&
  (match req.openrouterApiKey with
   | some k => !((trimL k.data).isEmpty)
   | none => false)

/-- The maxUrls value before the hard cap: parseInt or-else 20, so a
missing, unparseable or zero field all yield 20, while any other
parsed integer (including a negative one) passes through. -/
def maxUrlsRawVal (maxUrls : Option String) : Int :=
  match maxUrls with
  | none => 20
  | some s =>
    match jsParseInt s with
    | none => 20
    | some p => if p = 0 then 20 else p

/-- Result of one documentation-resolution run.  Payload fields not
examined by any claim (the parsed header title and description, the
extracted link list, the base64 download and file name) are omitted;
the raw document content is kept. -/
inductive LlmsResult where
  /-- Missing or blank site URL (status 400). -/
  | missingUrl : LlmsResult
  /-- The site URL failed URL parsing (status 422). -/
  | invalidUrl : LlmsResult
  /-- Success with source tag llms-full.txt. -/
  | fullTxt (content : String) : LlmsResult
  /-- Success with source tag generated. -/
  | generated (out : GenOut) : LlmsResult
  /-- The generation pipeline threw (status 500). -/
  | genFailed (msg : String) : LlmsResult
  /-- Success with source tag llms.txt and the noFullTxt flag. -/
  | shortTxt (content : String) : LlmsResult
  /-- Neither document found and generation not attempted (status
  404, carrying the requiresGeneration flag). -/
  | notFound : LlmsResult
deriving DecidableEq

/-- The source tag of a success result. -/
def sourceTag : LlmsResult → Option String
  | .fullTxt _ => some "llms-full.txt"
  | .generated _ => some "generated"
  | .shortTxt _ => some "llms.txt"
  | _ => none

/-- The HTTP status attached to each result branch. -/
def llmsStatus : LlmsResult → Nat
  | .missingUrl => 400
  | .invalidUrl => 422
  | .fullTxt _ => 200
  | .generated _ => 200
  | .genFailed _ => 500
  | .shortTxt _ => 200
  | .notFound => 404

/-- Model of the llmstxt action: validate the site URL, probe
llms-full.txt, on failure generate when both credentials are present
(capping maxUrls at 50), otherwise probe llms.txt, otherwise report
not-found. -/
def llmsAction (w : LlmsWorld) (req : LlmsRequest) : LlmsResult × List LlmsEvent :=
  match req.siteUrl with
  | none => (.missingUrl, [])
  | some su =>
    if (trimL su.data).isEmpty then (.missingUrl, [])
    else if !w.urlValid then (.invalidUrl, [])
    else
      match w.fullProbe with
      | .response status body =>
        if respOk status && !((trimL body.data).isEmpty) then
          (.fullTxt body, [.probeFull])
        else llmsFallback w req
      | .netError => llmsFallback w req
where
  /-- The continuation after a failed or empty llms-full.txt probe. -/
  llmsFallback (w : LlmsWorld) (req : LlmsRequest) : LlmsResult × List LlmsEvent :=
    if hasApiKeys req then
      let maxUrls := maxUrlsRawVal req.maxUrls
      let gen := generateLLMsFullTxt w w.origin (min maxUrls 50)
      match gen.1 with
      | .ok out => (.generated out, .probeFull :: gen.2)
      | .error msg =>
        (.genFailed ("Failed to generate llms-full.txt: " ++ msg), .probeFull :: gen.2)
    else
      match w.shortProbe with
      | .response status body =>
        if respOk status && !((trimL body.data).isEmpty) then
          (.shortTxt body, [.probeFull, .probeShort])
        else (.notFound, [.probeFull, .probeShort])
      | .netError => (.notFound, [.probeFull, .probeShort])

/-! ## Repository bundler (processZip of the github route) -/

/-- The document extension table of the github route. -/
def DOC_EXTENSIONS : List String := ["pdf", "txt", "md", "docx"]

/-- The image extension table of the github route. -/
def IMG_EXTENSIONS : List String :=
  ["avif", "bmp", "gif", "ico", "jp2", "png", "webp", "tif", "tiff",
   "heic", "heif", "jpeg", "jpg", "jpe"]

/-- The media extension table of the github route. -/
def MEDIA_EXTENSIONS : List String :=
  ["3g2", "3gp", "aac", "aif", "aifc", "aiff", "amr", "au", "avi", "cda",
   "m4a", "mid", "mp3", "mp4", "mpeg", "ogg", "opus", "ra", "ram", "snd",
   "wav", "wma"]

/-- The code extension table of the github route. -/
def CODE_EXTENSIONS : List String :=
  ["js", "ts", "jsx", "tsx", "py", "java", "c", "cpp", "h", "hpp", "cs",
   "go", "rs", "rb", "php", "swift", "kt", "scala", "vue", "svelte",
   "sql", "sh", "bash", "yaml", "yml", "json", "xml", "html", "css",
   "scss", "less", "r", "m", "pl", "pm", "t", "lua", "dart", "elm",
   "erl", "ex", "exs", "fs", "fsx", "hs", "lhs"]

/-- The ignored-directory denylist of the github route. -/
def IGNORED_DIRS : List String :=
  ["node_modules", ".git", "dist", "build", "out", "target", "vendor",
   "bin", "obj", ".idea", ".vscode", "__pycache__", ".next", ".nuxt",
   "coverage"]

/-- One member of the input archive; content stands for the byte
content of the member. -/
structure ZipEntry where
  path : String
  dir : Bool
  content : String
deriving DecidableEq

/-- The repository identity passed along a GitHub download. -/
structure RepoInfo where
  owner : String
  name : String
  url : String
deriving DecidableEq

/-- One record of the processed-files list; content additionally keeps
the copied bytes so that byte preservation into the output archive can
be stated. -/
structure RepoFile where
  path : String
  name : String
  originalExtension : String
  convertedName : String
  size : Nat
  isCode : Bool
  content : String
deriving DecidableEq

/-- The aggregate statistics of one bundling run. -/
structure RepoStats where
  totalFiles : Nat
  includedFiles : Nat
  codeFilesConverted : Nat
deriving DecidableEq

/-- The notebooklm-manifest.json document. -/
structure RepoManifest where
  source : String
  generatedAt : String
  repo : Option RepoInfo
  stats : RepoStats
  files : List String
deriving DecidableEq

/-- Content of one add to the output archive. -/
inductive OutContent where
  | bytes (data : String) : OutContent
  | manifestJson (m : RepoManifest) : OutContent
deriving DecidableEq

/-- Whether the pattern occurs at the head of the list. -/
def startsWithL : List Char → List Char → Bool
  | [], _ => true
  | _ :: _, [] => false
  | p :: ps, c :: cs => p = c && startsWithL ps cs

/-- Model of String.prototype.includes: whether the pattern occurs
anywhere in the list (the empty pattern always does). -/
def infixOfL (pat : List Char) : List Char → Bool
  | [] => pat.isEmpty
  | c :: rest => startsWithL pat (c :: rest) || infixOfL pat rest

/-- Whether some path component is on the ignored-directory list. -/
def isIgnoredPath (path : String) : Bool :=
  (splitChar '/' path.data).any (fun part => IGNORED_DIRS.contains (String.mk part))

/-- The leaf file name of a path: path.split(slash).pop() or-else the
empty string. -/
def leafName (path : String) : List Char :=
  (splitChar '/' path.data).getLastD []

/-- The lowercased extension of a file name:
fileName.split(dot).pop() lowercased, or-else the empty string. -/
def extOf (fileName : List Char) : String :=
  String.mk (((splitChar '.' fileName).getLastD []).map jsToLower)

/-- The destination path before classification: when the entry has at
least two path segments, a repository identity is known and the first
segment contains the repository name, that first segment is
stripped. -/
def targetBase (repoInfo : Option RepoInfo) (path : String) : String :=
  let pathParts := splitChar '/' path.data
  match repoInfo with
  | some r =>
    if pathParts.length > 1 && infixOfL r.name.data (pathParts.headD []) then
      String.mk (List.intercalate ['/'] pathParts.tail)
    else path
  | none => path

/-- Classification of one archive member: directories, members under
an ignored directory, dotfile leaves and unrecognized extensions are
dropped; document, image and media extensions pass through unchanged;
code extensions pass through with a txt suffix and the code flag. -/
def processEntry (repoInfo : Option RepoInfo) (e : ZipEntry) : Option RepoFile :=
  if e.dir || isIgnoredPath e.path then none
  else
    let fileName := leafName e.path
    if fileName.headD ' ' = '.' then none
    else
      let extension := extOf fileName
      let base := targetBase repoInfo e.path
      if DOC_EXTENSIONS.contains extension || IMG_EXTENSIONS.contains extension ||
         MEDIA_EXTENSIONS.contains extension then
        some
          { path := base
            name := String.mk fileName
            originalExtension := extension
            convertedName := String.mk (leafName base)
            size := e.content.length
            isCode := false
            content := e.content }
      else if CODE_EXTENSIONS.contains extension then
        let converted := String.mk (base.data ++ ['.', 't', 'x', 't'])
        some
          { path := converted
            name := String.mk fileName
            originalExtension := extension
            convertedName := String.mk (leafName converted)
            size := e.content.length
            isCode := true
            content := e.content }
      else none

/-- The output of a successful bundling run: statistics, the
processed-files list, the ordered adds to the output archive and the
manifest. -/
structure ProcessOut where
  stats : RepoStats
  processedFiles : List RepoFile
  outputAdds : List (String × OutContent)
  manifest : RepoManifest
deriving DecidableEq

/-- Model of processZip: enumerate and classify every member, reject
when nothing was included, then append the manifest after all file
adds. -/
def processZip (entries : List ZipEntry) (repoInfo : Option RepoInfo) (genAt : String) :
    Except String ProcessOut :=
  let processedFiles := entries.filterMap (processEntry repoInfo)
  if processedFiles.isEmpty then .error "No supported files found in the archive."
  else
    let stats : RepoStats :=
      { totalFiles := entries.length
        includedFiles := processedFiles.length
        codeFilesConverted := (processedFiles.filter (fun f => f.isCode)).length }
    let manifest : RepoManifest :=
      { source := if repoInfo.isSome then "github" else "upload"
        generatedAt := genAt
        repo := repoInfo
        stats := stats
        files := processedFiles.map (fun f => f.path) }
    .ok
      { stats := stats
        processedFiles := processedFiles
        outputAdds :=
          processedFiles.map (fun f => (f.path, OutContent.bytes f.content)) ++
          [("notebooklm-manifest.json", OutContent.manifestJson manifest)]
        manifest := manifest }

/-! ## Spec-side definitions -/

/-- The effective item count formula claimed for feed resolution:
min(max(parsed, 1), 40) for parsed integers, 15 otherwise. -/
def effectiveCountSpec (limitRaw : Option String) : Int :=
  match jsParseInt (limitRaw.getD "") with
  | some p => min (max p 1) 40
  | none => 15

/-- The page bound claimed for documentation generation: the maxPages
parameter clamped into 1..50, defaulting to 20 when missing or
unparseable. -/
def maxPagesClampSpec (maxUrls : Option String) : Int :=
  match maxUrls with
  | none => 20
  | some s =>
    match jsParseInt s with
    | none => 20
    | some p => min (max p 1) 50

/-- Number of scrape calls in a trace. -/
def countScrapes (evs : List LlmsEvent) : Nat :=
  (evs.filter (fun e => match e with | .scrapeCall _ => true | _ => false)).length

/-- Whether a file name ends in the markdown extension. -/
def hasMdExt (s : String) : Bool :=
  match s.data.reverse with
  | 'd' :: 'm' :: '.' :: _ => true
  | _ => false

/-- Whether a page URL survives the generation loop according to the
source: its scrape returned non-null markdown that is nonempty. -/
def scrapeKept (w : LlmsWorld) (u : String) : Bool :=
  !(((scrapeUrl (w.scrape u)).getD "").isEmpty)

/-- The ASCII slug character class of the claimed regex, plus the
hyphen separator. -/
def goodSlugChar (c : Char) : Bool := isAsciiLowerDigit c || c = '-'

/-- Whether the list has no two adjacent hyphens. -/
def noDoubleDash : List Char → Bool
  | a :: b :: t => !(a = '-' && b = '-') && noDoubleDash (b :: t)
  | _ => true

/-- The truncated title part of an entry id: the slug pipeline output
cut to 48 characters, with the entry fallback when empty. -/
def entryTitlePartL (t : List Char) : List Char :=
  let short := (slugCoreL t).take 48
  if short.isEmpty then "entry".data else short

/-! ## Concrete fixtures for witnesses and counterexamples -/

/-- A feed item with full data. -/
def itemFullData : RssItem :=
  { title := some "Hello World", link := some "https://a.example/x",
    contentEncoded := none, contentEncodedRaw := none,
    content := some "<p>body A</p>", summary := none,
    isoDate := some "2025-01-01T00:00:00Z", pubDate := none }

/-- A feed item with a blank title and no link or body. -/
def itemBlank : RssItem :=
  { title := some "   ", link := none,
    contentEncoded := none, contentEncodedRaw := none,
    content := none, summary := none,
    isoDate := none, pubDate := some "Jan 2" }

/-- A third feed item. -/
def itemThird : RssItem :=
  { title := some "Third", link := some "https://a.example/z",
    contentEncoded := some "enc", contentEncodedRaw := none,
    content := none, summary := none, isoDate := none, pubDate := none }

/-- A nominal feed world: three items, one article extraction
succeeding, one failing over the network, one returning no article. -/
def hnNominalWorld : HNWorld :=
  { urlValid := true, feedStatus := 200, feedBody := "xml",
    parse := fun _ =>
      some { title := some " HN Feed ", link := some "https://news.example",
             description := some "desc", items := some [itemFullData, itemBlank, itemThird] },
    convert := fun s => if s = "<p>body A</p>" then "body A" else "",
    article := fun u =>
      if u = "https://a.example/x" then .httpResponse 200 (.parsed (some "full article text"))
      else if u = "https://a.example/z" then .httpResponse 200 (.parsed none)
      else .netError,
    hostName := "hnrss.org", nowIso := "2025-06-01T10:00:00.000Z" }

/-- A world whose single article extraction parses an article with
empty textContent while the feed body is also empty. -/
def hnEmptyArticleWorld : HNWorld :=
  { urlValid := true, feedStatus := 200, feedBody := "xml",
    parse := fun _ =>
      some { title := some "F", link := some "https://f.example",
             description := none, items := some [itemBlank] },
    convert := fun _ => "",
    article := fun _ => .httpResponse 200 (.parsed (some "")),
    hostName := "hnrss.org", nowIso := "2025-06-01T10:00:00.000Z" }

/-- A world whose configured feed URL fails to parse. -/
def hnBadUrlWorld : HNWorld :=
  { hnNominalWorld with urlValid := false }

/-- A world whose feed fetch returns 503. -/
def hnUpstreamWorld : HNWorld :=
  { hnNominalWorld with feedStatus := 503 }

/-- A world whose feed body fails XML parsing. -/
def hnParseFailWorld : HNWorld :=
  { hnNominalWorld with parse := fun _ => none }

/-- A world whose parsed feed has zero items. -/
def hnEmptyFeedWorld : HNWorld :=
  { hnNominalWorld with
      parse := fun _ =>
        some { title := some "F", link := none, description := none, items := some [] } }

/-- A documentation world where llms-full.txt is missing, llms.txt
would succeed, and mapping yields three pages whose scrapes all
succeed except the second. -/
def llmsFallbackWorld : LlmsWorld :=
  { urlValid := true,
    fullProbe := .response 404 "",
    shortProbe := .response 200 "# short index\n",
    mapOutcome := .http 200 (some ["u1", "u2", "u3"]),
    scrape := fun u => if u = "u2" then .netError else .http 200 (some (some (String.append "md-" u))),
    annotate := fun _ => .http 200 (some (.parsed (some "T") (some "D"))),
    origin := "https://x.test" }

/-- A documentation world where llms-full.txt is present and
nonempty. -/
def llmsFullHitWorld : LlmsWorld :=
  { llmsFallbackWorld with fullProbe := .response 200 "# Site\n> Docs\n" }

/-- A documentation world whose single mapped page scrapes
successfully but with empty markdown. -/
def llmsEmptyMarkdownWorld : LlmsWorld :=
  { llmsFallbackWorld with
      mapOutcome := .http 200 (some ["a"]),
      scrape := fun _ => .http 200 (some (some "")) }

/-- A request carrying both credentials and a maxUrls field of 0. -/
def llmsReqKeysZero : LlmsRequest :=
  { siteUrl := some "https://x.test", firecrawlApiKey := some "fk",
    openrouterApiKey := some "ok9", maxUrls := some "0" }

/-- A request carrying both credentials and no maxUrls field. -/
def llmsReqKeys : LlmsRequest :=
  { llmsReqKeysZero with maxUrls := none }

/-- A request carrying no credentials. -/
def llmsReqNoKeys : LlmsRequest :=
  { llmsReqKeysZero with firecrawlApiKey := none, openrouterApiKey := none }

/-- An input archive mixing every classification case. -/
def zipMixedEntries : List ZipEntry :=
  [{ path := "node_modules/x/index.js", dir := false, content := "zzz" },
   { path := "src/app.py", dir := false, content := "print(1)" },
   { path := ".env", dir := false, content := "secret" },
   { path := "README.md", dir := false, content := "# readme" },
   { path := "notes.xyz", dir := false, content := "nah" },
   { path := "src/", dir := true, content := "" }]

/-- An input archive containing only excluded or dropped members. -/
def zipExcludedEntries : List ZipEntry :=
  [{ path := "node_modules/a.js", dir := false, content := "x" },
   { path := ".gitignore", dir := false, content := "y" },
   { path := "notes.xyz", dir := false, content := "z" }]

/-- The empty payload, used as the junk value of projections. -/
def emptyHNPayload : HNPayload :=
  { archiveFiles := [], fileName := "", feedTitle := "", feedDescription := none,
    feedUrl := "", totalEntries := 0, extractedEntries := 0, entries := [], summaries := [] }

/-- Payload projection of a result. -/
def hnPayloadOf : HNResult → HNPayload
  | .success p => p
  | _ => emptyHNPayload

/-- The empty generation output, used as the junk value of
projections. -/
def emptyGenOut : GenOut :=
  { llmsTxt := "", llmsFullTxt := "", processedCount := 0, pages := [] }

/-- Generation-output projection of a result. -/
def genOutOf : LlmsResult → GenOut
  | .generated o => o
  | _ => emptyGenOut

/-- Generation-output projection of the pipeline value. -/
def genExceptOutOf : Except String GenOut → GenOut
  | .ok o => o
  | .error _ => emptyGenOut

/-- The empty bundling output, used as the junk value of
projections. -/
def emptyProcessOut : ProcessOut :=
  { stats := { totalFiles := 0, includedFiles := 0, codeFilesConverted := 0 },
    processedFiles := [], outputAdds := [],
    manifest := { source := "", generatedAt := "", repo := none,
                  stats := { totalFiles := 0, includedFiles := 0, codeFilesConverted := 0 },
                  files := [] } }

/-- Output projection of a bundling result. -/
def processOutOf : Except String ProcessOut → ProcessOut
  | .ok o => o
  | .error _ => emptyProcessOut

/-- The first entry of the nominal single-story run. -/
def hnWitnessEntry : HNEntry :=
  (hnEntriesOf (hnAction hnNominalWorld (some "1")).1).headD
    { id := "", title := "", url := "", publishedAt := none, textContent := "" }

/-! ## Helper lemmas: feed resolver -/

theorem buildEntries_length (w : HNWorld) (fl : Option String) (fh : String) :
    ∀ (n : Nat) (l : List RssItem), (buildEntries w fl fh n l).length = l.length := by
  intro n l
  induction l generalizing n with
  | nil => rfl
  | cons item rest ih => simp [buildEntries, ih]

theorem hnLimit_eq_spec (raw : Option String) : hnLimit raw = effectiveCountSpec raw := rfl

theorem hnLimit_le_forty (raw : Option String) : hnLimit raw ≤ 40 := by
  unfold hnLimit MAX_LIMIT
  cases jsParseInt (raw.getD "") with
  | none => decide
  | some p => exact min_le_right (max p 1) 40

theorem hnAction_success_inv (w : HNWorld) (raw : Option String) (p : HNPayload)
    (evs : List HNEvent) (h : hnAction w raw = (.success p, evs)) :
    ∃ feed : ParsedFeed,
      w.urlValid = true ∧
      respOk w.feedStatus = true ∧
      w.parse w.feedBody = some feed ∧
      (feed.items.getD []).isEmpty = false ∧
      p = hnSuccessPayload w raw feed ∧
      evs = .feedFetch :: (hnEntriesRun w raw feed).map (fun e => .articleFetch e.url) := by
  unfold hnAction at h
  split at h
  · simp at h
  · next hvn =>
    have hv : w.urlValid = true := by
      simpa using hvn
    split at h
    · simp at h
    · next hsn =>
      have hst : respOk w.feedStatus = true := by
        simpa using hsn
      split at h
      · simp at h
      · next feed heq =>
        split at h
        · simp at h
        · next hin =>
          simp only [Prod.mk.injEq, HNResult.success.injEq] at h
          exact ⟨feed, hv, hst, heq, by simpa using hin, h.1.symm, h.2.symm⟩

/-- C6: for every feed-resolution request, the effective item count
used to slice the feed is min(max(parsed, 1), 40) when the submitted
limit string parses as an integer and exactly 15 when it does not:
the number of resolved entries is the minimum of that formula and the
upstream item count, which the payload reports as totalEntries. -/
theorem hn_effective_limit (w : HNWorld) (raw : Option String) (p : HNPayload)
    (evs : List HNEvent) (h : hnAction w raw = (.success p, evs)) :
    hnLimit raw = effectiveCountSpec raw ∧
    (∀ s q, raw = some s → jsParseInt s = some q → hnLimit raw = min (max q 1) 40) ∧
    (∀ s, raw = some s → jsParseInt s = none → hnLimit raw = 15) ∧
    p.entries.length = min (effectiveCountSpec raw).toNat p.totalEntries := by
  obtain ⟨feed, -, -, -, -, hp, -⟩ := hnAction_success_inv w raw p evs h
  refine ⟨rfl, ?_, ?_, ?_⟩
  · intro s q hs hq
    simp [hnLimit, hs, hq, MAX_LIMIT]
  · intro s hs hq
    simp [hnLimit, hs, hq]
  · subst hp
    simp [hnSuccessPayload, hnEntriesRun, buildEntries_length, List.length_take,
      hnLimit_eq_spec]

theorem hn_effective_limit_witness :
    (hnPayloadOf (hnAction hnNominalWorld (some "2")).1).entries.length =
      min (effectiveCountSpec (some "2")).toNat
        (hnPayloadOf (hnAction hnNominalWorld (some "2")).1).totalEntries ∧
    effectiveCountSpec (some "2") = 2 ∧
    (hnPayloadOf (hnAction hnNominalWorld (some "2")).1).totalEntries = 3 := by
  refine ⟨(hn_effective_limit hnNominalWorld (some "2")
    (hnPayloadOf (hnAction hnNominalWorld (some "2")).1)
    (hnAction hnNominalWorld (some "2")).2 (by rfl)).2.2.2, by decide, by decide⟩

/-- C3: feed resolution fails with status 500 on an invalid feed URL
before any network call, 502 reporting the upstream status on a
non-2xx feed fetch, 422 on XML parse failure and 404 on an empty
feed; the article extractor converts every internal failure to null
and never raises, and per-item extraction failures never shrink the
batch. -/
theorem hn_error_taxonomy (w : HNWorld) (raw : Option String) :
    (w.urlValid = false →
      hnAction w raw = (.invalidUrl, []) ∧ hnStatus (hnAction w raw).1 = 500) ∧
    (w.urlValid = true → respOk w.feedStatus = false →
      hnAction w raw = (.upstream w.feedStatus, [.feedFetch]) ∧
      hnStatus (hnAction w raw).1 = 502) ∧
    (w.urlValid = true → respOk w.feedStatus = true → w.parse w.feedBody = none →
      hnAction w raw = (.parseFailed, [.feedFetch]) ∧ hnStatus (hnAction w raw).1 = 422) ∧
    (∀ feed, w.urlValid = true → respOk w.feedStatus = true →
      w.parse w.feedBody = some feed → feed.items.getD [] = [] →
      hnAction w raw = (.emptyFeed, [.feedFetch]) ∧ hnStatus (hnAction w raw).1 = 404) ∧
    (∀ (o : ArticleOutcome) (e : String),
      fetchArticleContentE o = .error e → fetchArticleContent o = none) ∧
    (∀ (s : Nat) (doc : ArticleDoc), respOk s = false →
      fetchArticleContent (.httpResponse s doc) = none) ∧
    (∀ p evs, hnAction w raw = (.success p, evs) →
      p.entries.length = min (hnLimit raw).toNat p.totalEntries) := by
  refine ⟨?_, ?_, ?_, ?_, ?_, ?_, ?_⟩
  · intro hv
    simp [hnAction, hv, hnStatus]
  · intro hv hst
    simp [hnAction, hv, hst, hnStatus]
  · intro hv hst hp
    simp [hnAction, hv, hst, hp, hnStatus]
  · intro feed hv hst hp hi
    simp [hnAction, hv, hst, hp, hi, hnStatus]
  · intro o e he
    simp [fetchArticleContent, he]
  · intro s doc hs
    simp [fetchArticleContent, fetchArticleContentE, hs]
  · intro p evs h
    obtain ⟨feed, -, -, -, -, hp, -⟩ := hnAction_success_inv w raw p evs h
    subst hp
    simp [hnSuccessPayload, hnEntriesRun, buildEntries_length, List.length_take]

theorem padIndexL_inj41 :
    ∀ i : Nat, i < 41 → ∀ j : Nat, j < 41 → padIndexL i = padIndexL j → i = j := by
  decide

theorem padIndexL_len2 : ∀ i : Nat, i < 41 → (padIndexL i).length = 2 := by
  decide

theorem pad_dash_inj (i j : Nat) (a b : List Char) (hi : i < 41) (hj : j < 41)
    (h : padIndexL i ++ '-' :: a = padIndexL j ++ '-' :: b) : i = j := by
  have hlen : (padIndexL i).length = (padIndexL j).length := by
    rw [padIndexL_len2 i hi, padIndexL_len2 j hj]
  exact padIndexL_inj41 i hi j hj (List.append_inj h hlen).1

theorem createEntryId_inj_index (i j : Nat) (t u : String) (hi : i < 41) (hj : j < 41)
    (h : createEntryId i t = createEntryId j u) : i = j := by
  have hl : createEntryIdL i t.data = createEntryIdL j u.data := by
    have := congrArg String.data h
    simpa [createEntryId] using this
  exact pad_dash_inj i j _ _ hi hj hl

theorem buildEntries_mem (w : HNWorld) (fl : Option String) (fh : String) :
    ∀ (n : Nat) (l : List RssItem) (e : HNEntry),
      e ∈ buildEntries w fl fh n l →
      ∃ k item, n < k ∧ k ≤ n + l.length ∧ e = mkEntry w fl fh k item := by
  intro n l
  induction l generalizing n with
  | nil => intro e he; simp [buildEntries] at he
  | cons item rest ih =>
    intro e he
    simp only [buildEntries, List.mem_cons] at he
    cases he with
    | inl h => exact ⟨n + 1, item, by omega, by simp only [List.length_cons]; omega, h⟩
    | inr h =>
      obtain ⟨k, it, hk1, hk2, hee⟩ := ih (n + 1) e h
      exact ⟨k, it, by omega, by simp only [List.length_cons]; omega, hee⟩

theorem mkEntry_id (w : HNWorld) (fl : Option String) (fh : String) (k : Nat) (item : RssItem) :
    (mkEntry w fl fh k item).id = createEntryId k (entryTitle k item.title) := rfl

theorem buildEntries_ids_distinct (w : HNWorld) (fl : Option String) (fh : String) :
    ∀ (n : Nat) (l : List RssItem), n + l.length ≤ 40 →
      (buildEntries w fl fh n l).Pairwise (fun a b => a.id ≠ b.id) := by
  intro n l
  induction l generalizing n with
  | nil => intro _; simp [buildEntries]
  | cons item rest ih =>
    intro hb
    simp only [buildEntries, List.pairwise_cons]
    constructor
    · intro e he heq
      obtain ⟨k, it, hk1, hk2, hee⟩ := buildEntries_mem w fl fh (n + 1) rest e he
      have hkk : n + 1 = k := by
        apply createEntryId_inj_index (n + 1) k _ _ (by simp at hb ⊢; omega)
          (by simp at hb hk2 ⊢; omega)
        rw [← mkEntry_id w fl fh (n + 1) item, heq, hee, mkEntry_id]
      omega
    · exact ih (n + 1) (by simp at hb ⊢; omega)

theorem filter_id_eq_one {l : List HNEntry}
    (hl : l.Pairwise (fun a b => a.id ≠ b.id)) {e : HNEntry} (he : e ∈ l) :
    (l.filter (fun f => f.id = e.id)).length = 1 := by
  induction l with
  | nil => simp at he
  | cons a t ih =>
    rw [List.pairwise_cons] at hl
    rcases List.mem_cons.mp he with rfl | ht
    · have hnone : t.filter (fun f => f.id = e.id) = [] := by
        rw [List.filter_eq_nil_iff]
        intro b hb
        simpa using (hl.1 b hb).symm
      simp [List.filter_cons, hnone]
    · have hne : a.id ≠ e.id := hl.1 e ht
      simp [List.filter_cons, hne, ih hl.2 ht]

theorem hasMdExt_mdName (id : String) : hasMdExt (mdName id) = true := by
  simp [hasMdExt, mdName, List.reverse_append]

theorem mdName_inj {a b : String} (h : mdName a = mdName b) : a = b := by
  have hd : a.data ++ ['.', 'm', 'd'] = b.data ++ ['.', 'm', 'd'] := by
    have := congrArg String.data h
    simpa [mdName] using this
  have := List.append_inj hd (by
    have := congrArg List.length hd
    simpa using this)
  exact String.ext this.1

theorem mdName_ne_manifest (id : String) : mdName id ≠ "manifest.json" := by
  intro h
  have h1 := hasMdExt_mdName id
  rw [h] at h1
  exact absurd h1 (by decide)

theorem mdName_ne_sources (id : String) : mdName id ≠ "sources.json" := by
  intro h
  have h1 := hasMdExt_mdName id
  rw [h] at h1
  exact absurd h1 (by decide)

theorem buildArchive_files (ft : String) (fd : Option String) (fu : String)
    (entries : List HNEntry) (now : String) :
    (buildArchive ft fd fu entries now).1 =
      { name := "manifest.json",
        content := HNFileContent.manifestDoc
          { schemaUri := "https://notebooklm.google.com/schemas/source-bundle.v1.json",
            generatedAt := now, feedTitle := ft, feedDescription := fd, feedUrl := fu,
            entries := entries.map manifestEntryOf } } ::
      entries.map entryArchiveFile ++
      [{ name := "sources.json",
         content := HNFileContent.sourcesDoc 1 now (entries.map sourceRecOf) }] := rfl

theorem hasMdExt_manifest_false : hasMdExt "manifest.json" = false := by decide

theorem hasMdExt_sources_false : hasMdExt "sources.json" = false := by decide

theorem filter_manifest_mapfiles (l : List HNEntry) :
    (l.map entryArchiveFile).filter (fun f => f.name = "manifest.json") = [] := by
  induction l with
  | nil => rfl
  | cons a t ih =>
    simp only [List.map_cons, List.filter_cons]
    rw [ih]
    simp [entryArchiveFile, mdName_ne_manifest]

theorem filter_mdext_mapfiles (l : List HNEntry) :
    (l.map entryArchiveFile).filter (fun f => hasMdExt f.name) = l.map entryArchiveFile := by
  induction l with
  | nil => rfl
  | cons a t ih =>
    simp only [List.map_cons, List.filter_cons]
    rw [ih]
    simp [entryArchiveFile, hasMdExt_mdName]

theorem filter_mdname_mapfiles (l : List HNEntry) (i : String) :
    (l.map entryArchiveFile).filter (fun f => f.name = mdName i) =
      (l.filter (fun b => b.id = i)).map entryArchiveFile := by
  induction l with
  | nil => rfl
  | cons a t ih =>
    by_cases hb : a.id = i
    · simp only [List.map_cons, List.filter_cons]
      rw [ih]
      simp [entryArchiveFile, hb]
    · have hmd : mdName a.id ≠ mdName i := fun hh => hb (mdName_inj hh)
      simp only [List.map_cons, List.filter_cons]
      rw [ih]
      simp [entryArchiveFile, hb, hmd]

theorem hnEntriesRun_bound (w : HNWorld) (raw : Option String) (feed : ParsedFeed) :
    (hnEntriesRun w raw feed).length ≤ 40 := by
  have h40 : (hnLimit raw).toNat ≤ 40 := by
    have := hnLimit_le_forty raw
    omega
  calc (hnEntriesRun w raw feed).length
      = ((feed.items.getD []).take (hnLimit raw).toNat).length := by
        unfold hnEntriesRun
        rw [buildEntries_length]
    _ ≤ (hnLimit raw).toNat := by
        rw [List.length_take]
        exact min_le_left _ _
    _ ≤ 40 := h40

/-- C2: within one archive, entry ids are pairwise distinct; the
archive holds exactly one manifest.json, exactly one markdown file per
entry, and the manifest entry count equals the surviving entry list
length (extractedEntries), not the raw upstream item count. -/
theorem hn_archive_invariants (w : HNWorld) (raw : Option String) (p : HNPayload)
    (evs : List HNEvent) (h : hnAction w raw = (.success p, evs)) :
    p.entries.Pairwise (fun a b => a.id ≠ b.id) ∧
    (p.archiveFiles.filter (fun f => f.name = "manifest.json")).length = 1 ∧
    (p.archiveFiles.filter (fun f => hasMdExt f.name)).length = p.entries.length ∧
    (∀ e ∈ p.entries,
      (p.archiveFiles.filter (fun f => f.name = mdName e.id)).length = 1) ∧
    (∃ m : HNManifest,
      p.archiveFiles.head? =
        some { name := "manifest.json", content := HNFileContent.manifestDoc m } ∧
      m.entries.length = p.entries.length) ∧
    p.extractedEntries = p.entries.length := by
  obtain ⟨feed, -, -, -, -, hp, -⟩ := hnAction_success_inv w raw p evs h
  subst hp
  have hent : (hnSuccessPayload w raw feed).entries = hnEntriesRun w raw feed := rfl
  have hdist : (hnSuccessPayload w raw feed).entries.Pairwise (fun a b => a.id ≠ b.id) := by
    rw [hent]
    unfold hnEntriesRun
    apply buildEntries_ids_distinct
    have := hnEntriesRun_bound w raw feed
    unfold hnEntriesRun at this
    rw [buildEntries_length] at this
    omega
  have hfiles : (hnSuccessPayload w raw feed).archiveFiles =
      (buildArchive (hnSourceTitle w feed) feed.description
        (feed.link.getD HACKERNEWS_FEED) (hnEntriesRun w raw feed) w.nowIso).1 := rfl
  refine ⟨hdist, ?_, ?_, ?_, ?_, rfl⟩
  · rw [hfiles, buildArchive_files]
    simp only [List.filter_cons, List.filter_append, filter_manifest_mapfiles]
    simp
  · rw [hent, hfiles, buildArchive_files]
    simp only [List.filter_cons, List.filter_append, filter_mdext_mapfiles,
      hasMdExt_manifest_false, hasMdExt_sources_false]
    simp [List.length_map]
  · intro e he
    rw [hent] at he
    rw [hfiles, buildArchive_files]
    have hman : ("manifest.json" : String) ≠ mdName e.id := fun hh =>
      mdName_ne_manifest e.id hh.symm
    have hsrc : ("sources.json" : String) ≠ mdName e.id := fun hh =>
      mdName_ne_sources e.id hh.symm
    have hdist2 : (hnEntriesRun w raw feed).Pairwise (fun a b => a.id ≠ b.id) := by
      rw [hent] at hdist
      exact hdist
    simp only [List.filter_cons, List.filter_append, filter_mdname_mapfiles]
    simp [hman, hsrc, List.length_map, filter_id_eq_one hdist2 he]
  · exact ⟨_, by rw [hfiles, buildArchive_files]; rfl, by
      rw [hent]
      simp [List.length_map]⟩

theorem hn_archive_invariants_witness :
    ((hnPayloadOf (hnAction hnNominalWorld (some "2")).1).archiveFiles.filter
      (fun f => f.name = "manifest.json")).length = 1 ∧
    ((hnPayloadOf (hnAction hnNominalWorld (some "2")).1).archiveFiles.filter
      (fun f => hasMdExt f.name)).length =
      (hnPayloadOf (hnAction hnNominalWorld (some "2")).1).entries.length ∧
    (hnPayloadOf (hnAction hnNominalWorld (some "2")).1).entries.length = 2 ∧
    (hnPayloadOf (hnAction hnNominalWorld (some "2")).1).totalEntries = 3 := by
  refine ⟨(hn_archive_invariants hnNominalWorld (some "2")
      (hnPayloadOf (hnAction hnNominalWorld (some "2")).1)
      (hnAction hnNominalWorld (some "2")).2 (by rfl)).2.1,
    (hn_archive_invariants hnNominalWorld (some "2")
      (hnPayloadOf (hnAction hnNominalWorld (some "2")).1)
      (hnAction hnNominalWorld (some "2")).2 (by rfl)).2.2.1,
    by decide, by decide⟩

theorem hn_error_taxonomy_witness :
    (hnAction hnBadUrlWorld none = (.invalidUrl, []) ∧
      hnStatus (hnAction hnBadUrlWorld none).1 = 500) ∧
    (hnAction hnUpstreamWorld none = (.upstream 503, [.feedFetch]) ∧
      hnStatus (hnAction hnUpstreamWorld none).1 = 502) ∧
    (hnAction hnParseFailWorld none = (.parseFailed, [.feedFetch]) ∧
      hnStatus (hnAction hnParseFailWorld none).1 = 422) ∧
    (hnAction hnEmptyFeedWorld none = (.emptyFeed, [.feedFetch]) ∧
      hnStatus (hnAction hnEmptyFeedWorld none).1 = 404) ∧
    fetchArticleContent .netError = none ∧
    fetchArticleContent (.httpResponse 503 (.parsed (some "body"))) = none := by
  refine ⟨(hn_error_taxonomy hnBadUrlWorld none).1 (by rfl),
    (hn_error_taxonomy hnUpstreamWorld none).2.1 (by rfl) (by decide),
    (hn_error_taxonomy hnParseFailWorld none).2.2.1 (by rfl) (by decide) (by rfl),
    (hn_error_taxonomy hnEmptyFeedWorld none).2.2.2.1
      { title := some "F", link := none, description := none, items := some [] }
      (by rfl) (by decide) (by rfl) (by rfl),
    (hn_error_taxonomy hnNominalWorld none).2.2.2.2.1 .netError "fetch threw" (by rfl),
    (hn_error_taxonomy hnNominalWorld none).2.2.2.2.2.1 503 (.parsed (some "body")) (by decide)⟩

/-- C5 counterexample: when the article extractor parses an article
whose textContent is the empty string, the ?? operator keeps it, so a
successful resolution can produce an entry with empty textContent;
the claim that textContent is never empty is false. -/
theorem hn_textContent_empty_cex :
    hnStatus (hnAction hnEmptyArticleWorld (some "1")).1 = 200 ∧
    (hnEntriesOf (hnAction hnEmptyArticleWorld (some "1")).1).map
      (fun e => e.textContent) = [""] ∧
    ¬ (∀ e ∈ hnEntriesOf (hnAction hnEmptyArticleWorld (some "1")).1,
        e.textContent ≠ "") := by
  refine ⟨by decide, by decide, ?_⟩
  intro hall
  have hmem : ((hnEntriesOf (hnAction hnEmptyArticleWorld (some "1")).1).headD
      { id := "", title := "", url := "", publishedAt := none, textContent := "x" }) ∈
      hnEntriesOf (hnAction hnEmptyArticleWorld (some "1")).1 := by decide
  have := hall _ hmem
  exact this (by decide)

/-- C5 amended: the article-extraction result is preferred verbatim
whenever it is non-null (even when it is the empty string); when it is
null the entry falls back to the nonempty normalized feed body and
otherwise to the placeholder, so textContent is nonempty unless the
extractor returned the empty string. -/
theorem hn_textContent_sources (w : HNWorld) (raw : Option String) (p : HNPayload)
    (evs : List HNEvent) (h : hnAction w raw = (.success p, evs))
    (e : HNEntry) (he : e ∈ p.entries) :
    (∀ s, fetchArticleContent (w.article e.url) = some s → e.textContent = s) ∧
    (fetchArticleContent (w.article e.url) = none → e.textContent ≠ "") ∧
    (e.textContent = "" → fetchArticleContent (w.article e.url) = some "") := by
  obtain ⟨feed, -, -, -, -, hp, -⟩ := hnAction_success_inv w raw p evs h
  subst hp
  have he2 : e ∈ buildEntries w feed.link HACKERNEWS_FEED 0
      ((feed.items.getD []).take (hnLimit raw).toNat) := he
  obtain ⟨k, item, -, -, hee⟩ := buildEntries_mem w feed.link HACKERNEWS_FEED 0 _ e he2
  subst hee
  have hurl : (mkEntry w feed.link HACKERNEWS_FEED k item).url =
      entryUrl feed.link HACKERNEWS_FEED item.link := rfl
  rw [hurl]
  cases hart : fetchArticleContent (w.article (entryUrl feed.link HACKERNEWS_FEED item.link)) with
  | some s =>
    have htc : (mkEntry w feed.link HACKERNEWS_FEED k item).textContent = s := by
      simp [mkEntry, hart]
    refine ⟨fun s' hs' => ?_, fun hn => ?_, fun h0 => ?_⟩
    · rw [htc]
      exact Option.some.inj hs'
    · simp at hn
    · rw [htc] at h0
      rw [h0]
  | none =>
    have htc : (mkEntry w feed.link HACKERNEWS_FEED k item).textContent =
        (if jsTrim (w.convert (rawHtmlOf item)) ≠ "" then jsTrim (w.convert (rawHtmlOf item))
         else NO_BODY_PLACEHOLDER) := by
      simp [mkEntry, hart]
    refine ⟨fun s' hs' => ?_, fun _ => ?_, fun h0 => ?_⟩
    · simp at hs'
    · rw [htc]
      by_cases hc : jsTrim (w.convert (rawHtmlOf item)) ≠ ""
      · rw [if_pos hc]
        exact hc
      · rw [if_neg hc]
        decide
    · rw [htc] at h0
      by_cases hc : jsTrim (w.convert (rawHtmlOf item)) ≠ ""
      · rw [if_pos hc] at h0
        exact absurd h0 hc
      · rw [if_neg hc] at h0
        exact absurd h0 (by decide)

theorem hn_textContent_sources_witness :
    hnWitnessEntry.textContent = "full article text" ∧ hnWitnessEntry.textContent ≠ "" := by
  have hmem : hnWitnessEntry ∈
      (hnPayloadOf (hnAction hnNominalWorld (some "1")).1).entries := by decide
  have hthm := (hn_textContent_sources hnNominalWorld (some "1")
    (hnPayloadOf (hnAction hnNominalWorld (some "1")).1)
    (hnAction hnNominalWorld (some "1")).2 (by rfl) hnWitnessEntry hmem).1
    "full article text" (by decide)
  exact ⟨hthm, by rw [hthm]; decide⟩

/-! ## Helper lemmas: documentation resolver -/

theorem countScrapes_nil : countScrapes [] = 0 := rfl

theorem countScrapes_cons_scrape (u : String) (evs : List LlmsEvent) :
    countScrapes (.scrapeCall u :: evs) = countScrapes evs + 1 := by
  simp [countScrapes, List.filter_cons]

theorem countScrapes_cons_ann (u : String) (evs : List LlmsEvent) :
    countScrapes (.annotateCall u :: evs) = countScrapes evs := by
  simp [countScrapes, List.filter_cons]

theorem countScrapes_cons_map (evs : List LlmsEvent) :
    countScrapes (.mapCall :: evs) = countScrapes evs := by
  simp [countScrapes, List.filter_cons]

theorem countScrapes_cons_full (evs : List LlmsEvent) :
    countScrapes (.probeFull :: evs) = countScrapes evs := by
  simp [countScrapes, List.filter_cons]

theorem genLoop_scrape_count (w : LlmsWorld) :
    ∀ (l : List String) (i : Nat), countScrapes (genLoop w l i).2 = l.length := by
  intro l
  induction l with
  | nil => intro i; rfl
  | cons url rest ih =>
    intro i
    simp only [genLoop]
    cases hs : scrapeUrl (w.scrape url) with
    | none => simp [countScrapes_cons_scrape, ih]
    | some md =>
      by_cases hmd : md = ""
      · simp [hmd, countScrapes_cons_scrape, ih]
      · simp [hmd, countScrapes_cons_scrape, countScrapes_cons_ann, ih]

theorem isEmpty_false_of_ne {s : String} (h : s ≠ "") : s.isEmpty = false := by
  cases he : s.isEmpty with
  | false => rfl
  | true => exact absurd ((String.isEmpty_iff s).mp he) h

theorem genLoop_pages_urls (w : LlmsWorld) :
    ∀ (l : List String) (i : Nat),
      (genLoop w l i).1.map (fun p => p.url) = l.filter (scrapeKept w) := by
  intro l
  induction l with
  | nil => intro i; rfl
  | cons url rest ih =>
    intro i
    simp only [genLoop, List.filter_cons]
    cases hs : scrapeUrl (w.scrape url) with
    | none =>
      have hk : scrapeKept w url = false := by
        simp [scrapeKept, hs, String.isEmpty_iff]
      simp [hk, ih]
    | some md =>
      by_cases hmd : md = ""
      · have hk : scrapeKept w url = false := by
          simp [scrapeKept, hs, hmd, String.isEmpty_iff]
        simp [hmd, hk, ih]
      · have hk : scrapeKept w url = true := by
          simp [scrapeKept, hs, isEmpty_false_of_ne hmd]
        simp [hmd, hk, ih]

theorem genLoop_pages_ann (w : LlmsWorld) :
    ∀ (l : List String) (i : Nat) (p : GenPage), p ∈ (genLoop w l i).1 →
      (p.title, p.description) = generateDescription (w.annotate p.url) ∧
      scrapeUrl (w.scrape p.url) = some p.markdown ∧ p.markdown ≠ "" := by
  intro l
  induction l with
  | nil => intro i p hp; simp [genLoop] at hp
  | cons url rest ih =>
    intro i p hp
    cases hs : scrapeUrl (w.scrape url) with
    | none =>
      simp only [genLoop, hs] at hp
      exact ih (i + 1) p hp
    | some md =>
      simp only [genLoop, hs] at hp
      by_cases hmd : md = ""
      · rw [if_pos hmd] at hp
        exact ih (i + 1) p hp
      · rw [if_neg hmd] at hp
        simp only [List.mem_cons] at hp
        cases hp with
        | inl h =>
          subst h
          exact ⟨rfl, hs, hmd⟩
        | inr h => exact ih (i + 1) p h

theorem genLoop_events_shape (w : LlmsWorld) :
    ∀ (l : List String) (i : Nat) (ev : LlmsEvent), ev ∈ (genLoop w l i).2 →
      (∃ u, ev = .scrapeCall u) ∨ (∃ u, ev = .annotateCall u) := by
  intro l
  induction l with
  | nil => intro i ev hev; simp [genLoop] at hev
  | cons url rest ih =>
    intro i ev hev
    cases hs : scrapeUrl (w.scrape url) with
    | none =>
      simp only [genLoop, hs] at hev
      simp only [List.mem_cons] at hev
      cases hev with
      | inl h => exact Or.inl ⟨url, h⟩
      | inr h => exact ih (i + 1) ev h
    | some md =>
      simp only [genLoop, hs] at hev
      by_cases hmd : md = ""
      · rw [if_pos hmd] at hev
        simp only [List.mem_cons] at hev
        cases hev with
        | inl h => exact Or.inl ⟨url, h⟩
        | inr h => exact ih (i + 1) ev h
      · rw [if_neg hmd] at hev
        simp only [List.mem_cons] at hev
        rcases hev with h | h | h
        · exact Or.inl ⟨url, h⟩
        · exact Or.inr ⟨url, h⟩
        · exact ih (i + 1) ev h

/-- C4 amended: in the generation pipeline a per-URL scrape failure
(and likewise a scrape that returns empty markdown) is skipped
silently; the full-text document holds one section per page whose
scrape returned nonempty markdown, in mapping order; processedCount
equals the number of such pages; annotation failures degrade to the
placeholder pair without dropping the page. -/
theorem gen_pipeline_sections (w : LlmsWorld) (siteUrl : String) (maxUrls : Int)
    (out : GenOut) (evs : List LlmsEvent)
    (h : generateLLMsFullTxt w siteUrl maxUrls = (.ok out, evs)) :
    ∃ urls, mapWebsite w.mapOutcome = .ok urls ∧ urls ≠ [] ∧
      out.pages.map (fun p => p.url) = (jsSliceTo urls maxUrls).filter (scrapeKept w) ∧
      out.processedCount = ((jsSliceTo urls maxUrls).filter (scrapeKept w)).length ∧
      out.llmsFullTxt = "# " ++ siteUrl ++ " llms-full.txt\n\n" ++
        String.join (out.pages.map genFullSection) ∧
      (∀ p ∈ out.pages, (p.title, p.description) = generateDescription (w.annotate p.url)) ∧
      (∀ (st : Nat) (c : Option AnnotateContent), respOk st = false →
        generateDescription (.http st c) = PLACEHOLDER_ANNOTATION) ∧
      generateDescription .netError = PLACEHOLDER_ANNOTATION := by
  unfold generateLLMsFullTxt at h
  split at h
  · simp at h
  · next urls heq =>
    split at h
    · simp at h
    · next hne =>
      simp only [Prod.mk.injEq, Except.ok.injEq] at h
      obtain ⟨hout, hev⟩ := h
      subst hout
      refine ⟨urls, heq, by simpa using hne, ?_, ?_, rfl, ?_, ?_, rfl⟩
      · exact genLoop_pages_urls w (jsSliceTo urls maxUrls) 0
      · have := genLoop_pages_urls w (jsSliceTo urls maxUrls) 0
        have hlen := congrArg List.length this
        simpa using hlen
      · intro p hp
        exact (genLoop_pages_ann w (jsSliceTo urls maxUrls) 0 p hp).1
      · intro st c hst
        simp [generateDescription, hst]

theorem gen_pipeline_sections_witness :
    (genExceptOutOf (generateLLMsFullTxt llmsFallbackWorld "https://x.test" 20).1).processedCount = 2 ∧
    (genExceptOutOf (generateLLMsFullTxt llmsFallbackWorld "https://x.test" 20).1).pages.map
      (fun p => p.url) = ["u1", "u3"] := by
  obtain ⟨urls, hm, -, hurls, hcount, -, -, -, -⟩ :=
    gen_pipeline_sections llmsFallbackWorld "https://x.test" 20
      (genExceptOutOf (generateLLMsFullTxt llmsFallbackWorld "https://x.test" 20).1)
      (generateLLMsFullTxt llmsFallbackWorld "https://x.test" 20).2 (by rfl)
  rw [show mapWebsite llmsFallbackWorld.mapOutcome =
    Except.ok ["u1", "u2", "u3"] from rfl] at hm
  have hu : ["u1", "u2", "u3"] = urls := Except.ok.inj hm
  subst hu
  constructor
  · rw [hcount]
    decide
  · rw [hurls]
    decide

/-- C4 counterexample: a scrape that succeeds (returns a non-null
result) but whose markdown is empty is dropped from the document and
from processedCount, so the document does not contain a section for
exactly the URLs whose scrape succeeded. -/
theorem gen_pipeline_sections_cex :
    (scrapeUrl (llmsEmptyMarkdownWorld.scrape "a")).isSome = true ∧
    (genOutOf (llmsAction llmsEmptyMarkdownWorld llmsReqKeys).1).processedCount = 0 ∧
    (genOutOf (llmsAction llmsEmptyMarkdownWorld llmsReqKeys).1).pages = [] ∧
    countScrapes (llmsAction llmsEmptyMarkdownWorld llmsReqKeys).2 = 1 := by
  refine ⟨by decide, by decide, by decide, by decide⟩

theorem generateLLMsFullTxt_events (w : LlmsWorld) (siteUrl : String) (maxUrls : Int) :
    ∃ tailEvs, (generateLLMsFullTxt w siteUrl maxUrls).2 = LlmsEvent.mapCall :: tailEvs ∧
      ∀ ev ∈ tailEvs, (∃ u, ev = .scrapeCall u) ∨ (∃ u, ev = .annotateCall u) := by
  unfold generateLLMsFullTxt
  cases hmw : mapWebsite w.mapOutcome with
  | error e => exact ⟨[], rfl, by simp⟩
  | ok urls =>
    dsimp only
    by_cases hne : urls.isEmpty
    · rw [if_pos hne]
      exact ⟨[], rfl, by simp⟩
    · rw [if_neg hne]
      exact ⟨(genLoop w (jsSliceTo urls maxUrls) 0).2, rfl,
        genLoop_events_shape w (jsSliceTo urls maxUrls) 0⟩

theorem llmsAction_trace_cases (w : LlmsWorld) (req : LlmsRequest) :
    (llmsAction w req).2 = [] ∨
    (probeSuccess w.fullProbe = true ∧ (llmsAction w req).2 = [LlmsEvent.probeFull] ∧
      sourceTag (llmsAction w req).1 = some "llms-full.txt") ∨
    (probeSuccess w.fullProbe = false ∧ hasApiKeys req = false ∧
      (llmsAction w req).2 = [LlmsEvent.probeFull, LlmsEvent.probeShort]) ∨
    (probeSuccess w.fullProbe = false ∧ hasApiKeys req = true ∧
      ∃ tailEvs, (llmsAction w req).2 = LlmsEvent.probeFull :: LlmsEvent.mapCall :: tailEvs ∧
        (∀ ev ∈ tailEvs, (∃ u, ev = .scrapeCall u) ∨ (∃ u, ev = .annotateCall u))) := by
  unfold llmsAction
  cases hsu : req.siteUrl with
  | none => exact Or.inl rfl
  | some su =>
    dsimp only
    by_cases htr : (trimL su.data).isEmpty
    · rw [if_pos htr]
      exact Or.inl rfl
    · rw [if_neg htr]
      by_cases hv : (!w.urlValid) = true
      · rw [if_pos hv]
        exact Or.inl rfl
      · rw [if_neg hv]
        have hfb : ∀ hps : probeSuccess w.fullProbe = false,
            (llmsAction.llmsFallback w req).2 = [] ∨
            (probeSuccess w.fullProbe = true ∧
              (llmsAction.llmsFallback w req).2 = [LlmsEvent.probeFull] ∧
              sourceTag (llmsAction.llmsFallback w req).1 = some "llms-full.txt") ∨
            (probeSuccess w.fullProbe = false ∧ hasApiKeys req = false ∧
              (llmsAction.llmsFallback w req).2 =
                [LlmsEvent.probeFull, LlmsEvent.probeShort]) ∨
            (probeSuccess w.fullProbe = false ∧ hasApiKeys req = true ∧
              ∃ tailEvs, (llmsAction.llmsFallback w req).2 =
                LlmsEvent.probeFull :: LlmsEvent.mapCall :: tailEvs ∧
                (∀ ev ∈ tailEvs,
                  (∃ u, ev = .scrapeCall u) ∨ (∃ u, ev = .annotateCall u))) := by
          intro hps
          unfold llmsAction.llmsFallback
          by_cases hk : hasApiKeys req
          · rw [if_pos hk]
            obtain ⟨tailEvs, hte, hsh⟩ :=
              generateLLMsFullTxt_events w w.origin (min (maxUrlsRawVal req.maxUrls) 50)
            cases hg : (generateLLMsFullTxt w w.origin (min (maxUrlsRawVal req.maxUrls) 50)).1 with
            | ok out =>
              refine Or.inr (Or.inr (Or.inr ⟨hps, hk, tailEvs, ?_, hsh⟩))
              simp [hg, hte]
            | error msg =>
              refine Or.inr (Or.inr (Or.inr ⟨hps, hk, tailEvs, ?_, hsh⟩))
              simp [hg, hte]
          · rw [if_neg hk]
            cases hsp : w.shortProbe with
            | netError =>
              exact Or.inr (Or.inr (Or.inl ⟨hps, by simpa using hk, rfl⟩))
            | response status body =>
              dsimp only
              by_cases hok : (respOk status && !(trimL body.data).isEmpty) = true
              · rw [if_pos hok]
                exact Or.inr (Or.inr (Or.inl ⟨hps, by simpa using hk, rfl⟩))
              · rw [if_neg hok]
                exact Or.inr (Or.inr (Or.inl ⟨hps, by simpa using hk, rfl⟩))
        split
        · next status body heq =>
          by_cases hok : (respOk status && !(trimL body.data).isEmpty) = true
          · rw [if_pos hok]
            refine Or.inr (Or.inl ⟨?_, rfl, rfl⟩)
            rw [heq]
            simpa [probeSuccess] using hok
          · rw [if_neg hok]
            refine hfb ?_
            rw [heq]
            simpa [probeSuccess] using hok
        · next heq =>
          refine hfb ?_
          rw [heq]
          rfl

/-- C1 amended: the resolver probes llms-full.txt first; a 2xx
response whose body is nonblank after trimming short-circuits with
the llms-full.txt source tag and the mapping operation is never
called; generation runs exactly when the llms-full.txt probe failed
and both credentials are present, without probing llms.txt; the
llms.txt probe runs only when generation was not attempted, after the
llms-full.txt probe. -/
theorem llms_resolution_order (w : LlmsWorld) (req : LlmsRequest) :
    (∀ su, req.siteUrl = some su → (trimL su.data).isEmpty = false → w.urlValid = true →
      probeSuccess w.fullProbe = true →
      sourceTag (llmsAction w req).1 = some "llms-full.txt" ∧
      (llmsAction w req).2 = [LlmsEvent.probeFull]) ∧
    (LlmsEvent.mapCall ∈ (llmsAction w req).2 →
      probeSuccess w.fullProbe = false ∧ hasApiKeys req = true) ∧
    (LlmsEvent.probeShort ∈ (llmsAction w req).2 →
      hasApiKeys req = false ∧ probeSuccess w.fullProbe = false ∧
      (llmsAction w req).2 = [LlmsEvent.probeFull, LlmsEvent.probeShort]) ∧
    (∀ ev, ev ∈ (llmsAction w req).2 →
      (llmsAction w req).2.head? = some LlmsEvent.probeFull) := by
  refine ⟨?_, ?_, ?_, ?_⟩
  · intro su hsu htr hv hfull
    cases hfp : w.fullProbe with
    | netError => rw [hfp] at hfull; simp [probeSuccess] at hfull
    | response status body =>
      rw [hfp] at hfull
      simp only [probeSuccess] at hfull
      constructor
      · simp [llmsAction, hsu, htr, hv, hfp, hfull, sourceTag]
      · simp [llmsAction, hsu, htr, hv, hfp, hfull]
  · intro hmem
    rcases llmsAction_trace_cases w req with hc | ⟨-, hc, -⟩ | ⟨-, -, hc⟩ |
      ⟨hps, hk, tailEvs, hc, hsh⟩
    · rw [hc] at hmem; simp at hmem
    · rw [hc] at hmem; simp at hmem
    · rw [hc] at hmem; simp at hmem
    · exact ⟨hps, hk⟩
  · intro hmem
    rcases llmsAction_trace_cases w req with hc | ⟨-, hc, -⟩ | ⟨hps, hk, hc⟩ |
      ⟨hps, hk, tailEvs, hc, hsh⟩
    · rw [hc] at hmem; simp at hmem
    · rw [hc] at hmem; simp at hmem
    · exact ⟨hk, hps, hc⟩
    · rw [hc] at hmem
      simp only [List.mem_cons] at hmem
      rcases hmem with h | h | h
      · simp at h
      · simp at h
      · rcases hsh _ h with ⟨u, hu⟩ | ⟨u, hu⟩ <;> simp at hu
  · intro ev hmem
    rcases llmsAction_trace_cases w req with hc | ⟨-, hc, -⟩ | ⟨-, -, hc⟩ |
      ⟨-, -, tailEvs, hc, -⟩
    · rw [hc] at hmem; simp at hmem
    · rw [hc]; rfl
    · rw [hc]; rfl
    · rw [hc]; rfl

theorem llms_resolution_order_witness :
    sourceTag (llmsAction llmsFullHitWorld llmsReqNoKeys).1 = some "llms-full.txt" ∧
    (llmsAction llmsFullHitWorld llmsReqNoKeys).2 = [LlmsEvent.probeFull] :=
  (llms_resolution_order llmsFullHitWorld llmsReqNoKeys).1 "https://x.test"
    (by rfl) (by decide) (by rfl) (by decide)

/-- C1 counterexample: with both credentials present and llms-full.txt
absent, the pipeline maps the site (generation is invoked) even
though the llms.txt probe would succeed and is never attempted, so
generation does not wait for both probes to fail. -/
theorem llms_probe_order_cex :
    LlmsEvent.mapCall ∈ (llmsAction llmsFallbackWorld llmsReqKeys).2 ∧
    probeSuccess llmsFallbackWorld.shortProbe = true ∧
    LlmsEvent.probeShort ∉ (llmsAction llmsFallbackWorld llmsReqKeys).2 := by
  refine ⟨by decide, by decide, by decide⟩

theorem jsSliceTo_length_le {α : Type} (xs : List α) (e : Int) :
    (jsSliceTo xs e).length ≤ xs.length := by
  unfold jsSliceTo
  simp [List.length_take]

theorem jsSliceTo_length_le_toNat {α : Type} (xs : List α) (e : Int) (he : 0 ≤ e) :
    (jsSliceTo xs e).length ≤ e.toNat := by
  unfold jsSliceTo
  rw [if_neg (by omega)]
  simp [List.length_take]

theorem llmsAction_scrapes (w : LlmsWorld) (req : LlmsRequest) :
    countScrapes (llmsAction w req).2 = 0 ∨
    (hasApiKeys req = true ∧ ∃ urls, mapWebsite w.mapOutcome = .ok urls ∧
      countScrapes (llmsAction w req).2 =
        (jsSliceTo urls (min (maxUrlsRawVal req.maxUrls) 50)).length) := by
  unfold llmsAction
  cases hsu : req.siteUrl with
  | none => exact Or.inl rfl
  | some su =>
    dsimp only
    by_cases htr : (trimL su.data).isEmpty
    · rw [if_pos htr]
      exact Or.inl rfl
    · rw [if_neg htr]
      by_cases hv : (!w.urlValid) = true
      · rw [if_pos hv]
        exact Or.inl rfl
      · rw [if_neg hv]
        have hfb : countScrapes (llmsAction.llmsFallback w req).2 = 0 ∨
            (hasApiKeys req = true ∧ ∃ urls, mapWebsite w.mapOutcome = .ok urls ∧
              countScrapes (llmsAction.llmsFallback w req).2 =
                (jsSliceTo urls (min (maxUrlsRawVal req.maxUrls) 50)).length) := by
          unfold llmsAction.llmsFallback
          by_cases hk : hasApiKeys req
          · rw [if_pos hk]
            have hgen : countScrapes
                (generateLLMsFullTxt w w.origin (min (maxUrlsRawVal req.maxUrls) 50)).2 = 0 ∨
                (∃ urls, mapWebsite w.mapOutcome = .ok urls ∧
                  countScrapes
                    (generateLLMsFullTxt w w.origin (min (maxUrlsRawVal req.maxUrls) 50)).2 =
                  (jsSliceTo urls (min (maxUrlsRawVal req.maxUrls) 50)).length) := by
              unfold generateLLMsFullTxt
              cases hmw : mapWebsite w.mapOutcome with
              | error e => exact Or.inl rfl
              | ok urls =>
                dsimp only
                by_cases hne : urls.isEmpty
                · rw [if_pos hne]
                  exact Or.inl rfl
                · rw [if_neg hne]
                  refine Or.inr ⟨urls, rfl, ?_⟩
                  simp only [countScrapes_cons_map]
                  exact genLoop_scrape_count w _ 0
            cases hg : (generateLLMsFullTxt w w.origin (min (maxUrlsRawVal req.maxUrls) 50)).1 with
            | ok out =>
              rcases hgen with h0 | ⟨urls, hmw, hcount⟩
              · exact Or.inl (by simp [hg, countScrapes_cons_full, h0])
              · exact Or.inr ⟨hk, urls, hmw, by simp [hg, countScrapes_cons_full, hcount]⟩
            | error msg =>
              rcases hgen with h0 | ⟨urls, hmw, hcount⟩
              · exact Or.inl (by simp [hg, countScrapes_cons_full, h0])
              · exact Or.inr ⟨hk, urls, hmw, by simp [hg, countScrapes_cons_full, hcount]⟩
          · rw [if_neg hk]
            cases hsp : w.shortProbe with
            | netError => exact Or.inl rfl
            | response status body =>
              dsimp only
              by_cases hok : (respOk status && !(trimL body.data).isEmpty) = true
              · rw [if_pos hok]
                exact Or.inl rfl
              · rw [if_neg hok]
                exact Or.inl rfl
        split
        · next status body heq =>
          by_cases hok : (respOk status && !(trimL body.data).isEmpty) = true
          · rw [if_pos hok]
            exact Or.inl rfl
          · rw [if_neg hok]
            exact hfb
        · next heq => exact hfb

/-- C9 amended: the number of pages handed to the scrape loop is at
most min(parsed, 50) when the maxPages field parses to a positive
integer; a missing, unparseable or zero field yields the default
limit 20; there is no lower clamp to 1, and the loop never receives
more pages than the mapping returned. -/
theorem llms_maxpages_bound (w : LlmsWorld) (req : LlmsRequest) :
    (∀ s p, req.maxUrls = some s → jsParseInt s = some p → 1 ≤ p →
      countScrapes (llmsAction w req).2 ≤ (min p 50).toNat) ∧
    (req.maxUrls = none → countScrapes (llmsAction w req).2 ≤ 20) ∧
    (∀ s, req.maxUrls = some s → (jsParseInt s = none ∨ jsParseInt s = some 0) →
      countScrapes (llmsAction w req).2 ≤ 20) ∧
    (∀ urls, mapWebsite w.mapOutcome = .ok urls →
      countScrapes (llmsAction w req).2 ≤ urls.length) := by
  refine ⟨?_, ?_, ?_, ?_⟩
  · intro s p hs hp hpos
    rcases llmsAction_scrapes w req with h0 | ⟨-, urls, -, hcount⟩
    · omega
    · rw [hcount]
      have hval : maxUrlsRawVal req.maxUrls = p := by
        simp [maxUrlsRawVal, hs, hp]
        omega
      rw [hval]
      have := jsSliceTo_length_le_toNat urls (min p 50) (by omega)
      exact this
  · intro hs
    rcases llmsAction_scrapes w req with h0 | ⟨-, urls, -, hcount⟩
    · omega
    · rw [hcount]
      have hval : maxUrlsRawVal req.maxUrls = 20 := by
        simp [maxUrlsRawVal, hs]
      rw [hval]
      have := jsSliceTo_length_le_toNat urls (min 20 50) (by omega)
      simpa using this
  · intro s hs hpar
    rcases llmsAction_scrapes w req with h0 | ⟨-, urls, -, hcount⟩
    · omega
    · rw [hcount]
      have hval : maxUrlsRawVal req.maxUrls = 20 := by
        rcases hpar with hn | h0
        · simp [maxUrlsRawVal, hs, hn]
        · simp [maxUrlsRawVal, hs, h0]
      rw [hval]
      have := jsSliceTo_length_le_toNat urls (min 20 50) (by omega)
      simpa using this
  · intro urls hmw
    rcases llmsAction_scrapes w req with h0 | ⟨-, urls2, hmw2, hcount⟩
    · omega
    · rw [hcount]
      have hu : urls2 = urls := Except.ok.inj (hmw2.symm.trans hmw)
      rw [hu]
      exact jsSliceTo_length_le urls _

theorem llms_maxpages_bound_witness :
    countScrapes (llmsAction llmsFallbackWorld llmsReqKeys).2 = 3 ∧
    countScrapes (llmsAction llmsFallbackWorld llmsReqKeys).2 ≤ 20 :=
  ⟨by decide, (llms_maxpages_bound llmsFallbackWorld llmsReqKeys).2.1 (by rfl)⟩

/-- C9 counterexample: a maxPages field of 0 parses as the integer 0,
whose clamp into 1..50 is 1, yet the loop receives all three mapped
pages because parseInt or-else 20 treats the falsy 0 as the default;
the claimed clamp bound is violated. -/
theorem llms_maxpages_clamp_cex :
    maxPagesClampSpec (some "0") = 1 ∧
    countScrapes (llmsAction llmsFallbackWorld llmsReqKeysZero).2 = 3 ∧
    ¬ (countScrapes (llmsAction llmsFallbackWorld llmsReqKeysZero).2 ≤
        (maxPagesClampSpec llmsReqKeysZero.maxUrls).toNat) := by
  refine ⟨by decide, by decide, by decide⟩

/-! ## Repository bundler theorems -/

/-- C8: bundling drops directories, members under ignored
directories, dotfile leaves and unrecognized extensions; document,
image and media extensions pass through with path and bytes
unchanged; code extensions pass through with a txt suffix, unchanged
bytes and the code flag counted by codeFilesConverted; an archive in
which every member is dropped is rejected with the no-supported-files
error. -/
theorem zip_classification (ri : Option RepoInfo) (e : ZipEntry)
    (entries : List ZipEntry) (g : String) :
    (isIgnoredPath e.path = true → processEntry ri e = none) ∧
    ((leafName e.path).head? = some '.' → processEntry ri e = none) ∧
    (∀ f, processEntry ri e = some f →
      f.content = e.content ∧ f.size = e.content.length ∧
      (f.isCode = true →
        CODE_EXTENSIONS.contains (extOf (leafName e.path)) = true ∧
        f.path = String.mk ((targetBase ri e.path).data ++ ['.', 't', 'x', 't'])) ∧
      (f.isCode = false →
        f.path = targetBase ri e.path ∧
        (DOC_EXTENSIONS.contains (extOf (leafName e.path)) ||
         IMG_EXTENSIONS.contains (extOf (leafName e.path)) ||
         MEDIA_EXTENSIONS.contains (extOf (leafName e.path))) = true)) ∧
    ((DOC_EXTENSIONS.contains (extOf (leafName e.path)) ||
      IMG_EXTENSIONS.contains (extOf (leafName e.path)) ||
      MEDIA_EXTENSIONS.contains (extOf (leafName e.path)) ||
      CODE_EXTENSIONS.contains (extOf (leafName e.path))) = false →
      processEntry ri e = none) ∧
    (processZip entries ri g = .error "No supported files found in the archive." ↔
      ∀ e2 ∈ entries, processEntry ri e2 = none) ∧
    (∀ out, processZip entries ri g = .ok out →
      out.stats.codeFilesConverted =
        (out.processedFiles.filter (fun f => f.isCode)).length) := by
  refine ⟨?_, ?_, ?_, ?_, ?_, ?_⟩
  · intro h
    simp [processEntry, h]
  · intro h
    have hd : (leafName e.path).headD ' ' = '.' := by
      cases hh : leafName e.path with
      | nil => simp [hh] at h
      | cons c r =>
        rw [hh] at h
        simp only [List.head?_cons, Option.some.injEq] at h
        simp [hh, h]
    unfold processEntry
    split
    · rfl
    · dsimp only
      rw [if_pos hd]
  · intro f hf
    unfold processEntry at hf
    split at hf
    · simp at hf
    · dsimp only at hf
      split at hf
      · simp at hf
      · split at hf
        · next hclass =>
          simp only [Option.some.injEq] at hf
          subst hf
          refine ⟨rfl, rfl, ?_, ?_⟩
          · intro hcode
            simp at hcode
          · intro _
            exact ⟨rfl, hclass⟩
        · split at hf
          · next hcode =>
            simp only [Option.some.injEq] at hf
            subst hf
            refine ⟨rfl, rfl, ?_, ?_⟩
            · intro _
              exact ⟨hcode, rfl⟩
            · intro hfalse
              simp at hfalse
          · simp at hf
  · intro h
    simp only [Bool.or_eq_false_iff] at h
    obtain ⟨⟨⟨hdoc, himg⟩, hmedia⟩, hcode⟩ := h
    unfold processEntry
    split
    · rfl
    · dsimp only
      by_cases hdot : (leafName e.path).headD ' ' = '.'
      · rw [if_pos hdot]
      · rw [if_neg hdot]
        rw [if_neg (by rw [hdoc, himg, hmedia]; simp)]
        rw [if_neg (by rw [hcode]; simp)]
  · unfold processZip
    by_cases hemp : (entries.filterMap (processEntry ri)).isEmpty
    · rw [if_pos hemp]
      constructor
      · intro _ e2 he2
        rw [List.isEmpty_iff, List.filterMap_eq_nil_iff] at hemp
        exact hemp e2 he2
      · intro _
        rfl
    · rw [if_neg hemp]
      constructor
      · intro h
        simp at h
      · intro hall
        exfalso
        apply hemp
        rw [List.isEmpty_iff, List.filterMap_eq_nil_iff]
        exact hall
  · intro out hout
    unfold processZip at hout
    dsimp only at hout
    by_cases hemp : (entries.filterMap (processEntry ri)).isEmpty
    · rw [if_pos hemp] at hout
      simp at hout
    · rw [if_neg hemp] at hout
      simp only [Except.ok.injEq] at hout
      subst hout
      rfl

theorem zip_classification_witness :
    processEntry none { path := "node_modules/x/index.js", dir := false, content := "zzz" } = none ∧
    processEntry none { path := ".env", dir := false, content := "secret" } = none ∧
    processEntry none { path := "src/app.py", dir := false, content := "print(1)" } =
      some { path := "src/app.py.txt", name := "app.py", originalExtension := "py",
             convertedName := "app.py.txt", size := 8, isCode := true, content := "print(1)" } ∧
    processEntry none { path := "notes.xyz", dir := false, content := "nah" } = none ∧
    processZip zipExcludedEntries none "t0" = .error "No supported files found in the archive." ∧
    (processOutOf (processZip zipMixedEntries none "t0")).stats.codeFilesConverted =
      ((processOutOf (processZip zipMixedEntries none "t0")).processedFiles.filter
        (fun f => f.isCode)).length ∧
    (processOutOf (processZip zipMixedEntries none "t0")).stats.codeFilesConverted = 1 := by
  refine ⟨(zip_classification none
      { path := "node_modules/x/index.js", dir := false, content := "zzz" } [] "t0").1
      (by decide),
    (zip_classification none
      { path := ".env", dir := false, content := "secret" } [] "t0").2.1 (by decide),
    by decide,
    (zip_classification none
      { path := "notes.xyz", dir := false, content := "nah" } [] "t0").2.2.2.1 (by decide),
    (zip_classification none
      { path := "", dir := true, content := "" } zipExcludedEntries "t0").2.2.2.2.1.mpr
      (by decide),
    (zip_classification none
      { path := "", dir := true, content := "" } zipMixedEntries "t0").2.2.2.2.2
      (processOutOf (processZip zipMixedEntries none "t0")) (by rfl),
    by decide⟩

/-- C10: after a successful bundling, includedFiles equals the length
of the processed-files list and of the manifest files array; every
processed path is added to the output archive before the manifest;
totalFiles counts every input member, directories and excluded
members included. -/
theorem zip_manifest_consistency (entries : List ZipEntry) (ri : Option RepoInfo)
    (g : String) (out : ProcessOut) (h : processZip entries ri g = .ok out) :
    out.stats.includedFiles = out.processedFiles.length ∧
    out.manifest.files = out.processedFiles.map (fun f => f.path) ∧
    out.manifest.files.length = out.stats.includedFiles ∧
    out.outputAdds =
      out.processedFiles.map (fun f => (f.path, OutContent.bytes f.content)) ++
      [("notebooklm-manifest.json", OutContent.manifestJson out.manifest)] ∧
    out.stats.totalFiles = entries.length ∧
    out.manifest.stats = out.stats ∧
    out.processedFiles = entries.filterMap (processEntry ri) := by
  unfold processZip at h
  dsimp only at h
  by_cases hemp : (entries.filterMap (processEntry ri)).isEmpty
  · rw [if_pos hemp] at h
    simp at h
  · rw [if_neg hemp] at h
    simp only [Except.ok.injEq] at h
    subst h
    exact ⟨rfl, rfl, by simp [List.length_map], rfl, rfl, rfl, rfl⟩

theorem zip_manifest_consistency_witness :
    (processOutOf (processZip zipMixedEntries none "t0")).stats.includedFiles = 2 ∧
    (processOutOf (processZip zipMixedEntries none "t0")).manifest.files =
      ["src/app.py.txt", "README.md"] ∧
    (processOutOf (processZip zipMixedEntries none "t0")).stats.totalFiles = 6 := by
  have h := zip_manifest_consistency zipMixedEntries none "t0"
    (processOutOf (processZip zipMixedEntries none "t0")) (by rfl)
  exact ⟨by rw [h.1]; decide, by decide, by rw [h.2.2.2.2.1]; decide⟩

/-! ## Helper lemmas: slug pipeline -/

theorem ascii_char_facts :
    ∀ n : Nat, n < 128 →
      (jsToLower (Char.ofNat n)).toNat < 128 ∧
      nfdChar (jsToLower (Char.ofNat n)) = [jsToLower (Char.ofNat n)] ∧
      (isLN (jsToLower (Char.ofNat n)) = true →
        isAsciiLowerDigit (jsToLower (Char.ofNat n)) = true) := by
  decide

theorem ascii_char_facts_of (c : Char) (h : c.toNat < 128) :
    (jsToLower c).toNat < 128 ∧ nfdChar (jsToLower c) = [jsToLower c] ∧
    (isLN (jsToLower c) = true → isAsciiLowerDigit (jsToLower c) = true) := by
  have := ascii_char_facts c.toNat h
  rwa [Char.ofNat_toNat] at this

theorem nfd_id_of (l : List Char) (h : ∀ c ∈ l, nfdChar c = [c]) : nfd l = l := by
  induction l with
  | nil => rfl
  | cons a t ih =>
    have ha := h a (List.mem_cons_self a t)
    have ht := ih (fun c hc => h c (List.mem_cons_of_mem a hc))
    simp only [nfd] at ht ⊢
    simp [ha, ht]

theorem replRun_noLN_chars (l : List Char)
    (h : ∀ c ∈ l, isLN c = true → isAsciiLowerDigit c = true) :
    (∀ c ∈ replRun (fun c => !(isLN c)) '-' l, goodSlugChar c = true) ∧
    (∀ c ∈ replSkip (fun c => !(isLN c)) '-' l, goodSlugChar c = true) := by
  induction l with
  | nil =>
    constructor <;> intro c hc <;> simp [replRun, replSkip] at hc
  | cons a t ih =>
    have ha := h a (List.mem_cons_self a t)
    have ht := ih (fun c hc hl => h c (List.mem_cons_of_mem a hc) hl)
    constructor
    · intro c hc
      simp only [replRun] at hc
      by_cases hla : (!(isLN a)) = true
      · rw [if_pos hla] at hc
        rcases List.mem_cons.mp hc with rfl | hc2
        · simp [goodSlugChar]
        · exact ht.2 c hc2
      · rw [if_neg hla] at hc
        rcases List.mem_cons.mp hc with rfl | hc2
        · have hl : isLN c = true := by
            simpa using hla
          simp [goodSlugChar, ha hl]
        · exact ht.1 c hc2
    · intro c hc
      simp only [replSkip] at hc
      by_cases hla : (!(isLN a)) = true
      · rw [if_pos hla] at hc
        exact ht.2 c hc
      · rw [if_neg hla] at hc
        rcases List.mem_cons.mp hc with rfl | hc2
        · have hl : isLN c = true := by
            simpa using hla
          simp [goodSlugChar, ha hl]
        · exact ht.1 c hc2

theorem noDoubleDash_cons (a : Char) (l : List Char) :
    noDoubleDash (a :: l) = true ↔
      noDoubleDash l = true ∧ (a = '-' → l.head? ≠ some '-') := by
  cases l with
  | nil => simp [noDoubleDash]
  | cons b t =>
    by_cases ha : a = '-' <;> by_cases hb : b = '-' <;>
      simp [noDoubleDash, ha, hb]

theorem replRun_noDD (p : Char → Bool) (hp : p '-' = true) (l : List Char) :
    noDoubleDash (replRun p '-' l) = true ∧
    noDoubleDash (replSkip p '-' l) = true ∧
    (replSkip p '-' l).head? ≠ some '-' := by
  induction l with
  | nil => exact ⟨rfl, rfl, by simp [replSkip]⟩
  | cons a t ih =>
    obtain ⟨ih1, ih2, ih3⟩ := ih
    by_cases hpa : p a = true
    · refine ⟨?_, ?_, ?_⟩
      · simp only [replRun, if_pos hpa]
        rw [noDoubleDash_cons]
        exact ⟨ih2, fun _ => ih3⟩
      · simp only [replSkip, if_pos hpa]
        exact ih2
      · simp only [replSkip, if_pos hpa]
        exact ih3
    · have hane : a ≠ '-' := fun ha => hpa (ha ▸ hp)
      refine ⟨?_, ?_, ?_⟩
      · simp only [replRun, if_neg hpa]
        rw [noDoubleDash_cons]
        exact ⟨ih1, fun ha => absurd ha hane⟩
      · simp only [replSkip, if_neg hpa]
        rw [noDoubleDash_cons]
        exact ⟨ih1, fun ha => absurd ha hane⟩
      · simp only [replSkip, if_neg hpa]
        simp [hane]

theorem collapse_id (l : List Char) :
    (noDoubleDash l = true → replRun (fun c => c = '-') '-' l = l) ∧
    (noDoubleDash l = true → l.head? ≠ some '-' → replSkip (fun c => c = '-') '-' l = l) := by
  induction l with
  | nil => exact ⟨fun _ => rfl, fun _ _ => rfl⟩
  | cons a t ih =>
    constructor
    · intro hnd
      rw [noDoubleDash_cons] at hnd
      by_cases ha : a = '-'
      · simp only [replRun]
        rw [if_pos (by simp [ha])]
        rw [ha]
        congr 1
        exact ih.2 hnd.1 (ha ▸ hnd.2 ha)
      · simp only [replRun]
        rw [if_neg (by simp [ha])]
        congr 1
        exact ih.1 hnd.1
    · intro hnd hhead
      rw [noDoubleDash_cons] at hnd
      have ha : a ≠ '-' := by
        intro ha
        exact hhead (by simp [ha])
      simp only [replSkip]
      rw [if_neg (by simp [ha])]
      congr 1
      exact ih.1 hnd.1

theorem noDoubleDash_dropLast (l : List Char) (h : noDoubleDash l = true) :
    noDoubleDash l.dropLast = true := by
  induction l with
  | nil => rfl
  | cons a t ih =>
    cases t with
    | nil => rfl
    | cons b t2 =>
      rw [noDoubleDash_cons] at h
      rw [List.dropLast_cons_of_ne_nil (by simp : b :: t2 ≠ [])]
      rw [noDoubleDash_cons]
      refine ⟨ih h.1, ?_⟩
      intro ha hh
      cases t2 with
      | nil => simp at hh
      | cons d t3 =>
        rw [List.dropLast_cons_of_ne_nil (by simp : d :: t3 ≠ [])] at hh
        simp only [List.head?_cons, Option.some.injEq] at hh
        exact h.2 ha (by simp [hh])

theorem dropLast_getLast_ne (l : List Char) (h : noDoubleDash l = true)
    (hl : l.getLast? = some '-') : l.dropLast.getLast? ≠ some '-' := by
  induction l with
  | nil => simp at hl
  | cons a t ih =>
    cases t with
    | nil => simp
    | cons b t2 =>
      rw [List.getLast?_cons_cons] at hl
      rw [noDoubleDash_cons] at h
      have hdd := ih h.1 hl
      rw [List.dropLast_cons_of_ne_nil (by simp : b :: t2 ≠ [])]
      cases hbt : (b :: t2).dropLast with
      | nil =>
        have ht2 : t2 = [] := by
          cases t2 with
          | nil => rfl
          | cons d t3 =>
            rw [List.dropLast_cons_of_ne_nil (by simp : d :: t3 ≠ [])] at hbt
            simp at hbt
        subst ht2
        simp only [List.getLast?_singleton, Option.some.injEq] at hl
        have hane : a ≠ '-' := by
          intro ha
          exact h.2 ha (by simp [hl])
        simp [hane]
      | cons x xs =>
        rw [List.getLast?_cons_cons, ← hbt]
        exact hdd

theorem head?_dropLast (l : List Char) (h : l.dropLast ≠ []) :
    l.dropLast.head? = l.head? := by
  cases l with
  | nil => rfl
  | cons a t =>
    cases t with
    | nil => simp at h
    | cons b t2 =>
      rw [List.dropLast_cons_of_ne_nil (by simp : b :: t2 ≠ [])]
      rfl

theorem noDoubleDash_take (n : Nat) (l : List Char) (h : noDoubleDash l = true) :
    noDoubleDash (l.take n) = true := by
  induction l generalizing n with
  | nil => simp [noDoubleDash]
  | cons a t ih =>
    cases n with
    | zero => rfl
    | succ m =>
      rw [List.take_succ_cons]
      rw [noDoubleDash_cons] at h ⊢
      refine ⟨ih m h.1, ?_⟩
      intro ha hh
      cases t with
      | nil => simp at hh
      | cons b t2 =>
        cases m with
        | zero => simp at hh
        | succ k =>
          rw [List.take_succ_cons] at hh
          simp only [List.head?_cons, Option.some.injEq] at hh
          exact h.2 ha (by simp [hh])

theorem head?_take (n : Nat) (l : List Char) (hn : n ≠ 0) :
    (l.take n).head? = l.head? := by
  cases l with
  | nil => simp
  | cons a t =>
    cases n with
    | zero => exact absurd rfl hn
    | succ m => rw [List.take_succ_cons]; rfl

theorem stripDashes_props (l : List Char)
    (hgood : ∀ c ∈ l, goodSlugChar c = true)
    (hnd : noDoubleDash l = true) :
    (∀ c ∈ stripDashes l, goodSlugChar c = true) ∧
    noDoubleDash (stripDashes l) = true ∧
    (stripDashes l ≠ [] →
      (stripDashes l).head? ≠ some '-' ∧ (stripDashes l).getLast? ≠ some '-') := by
  have step : ∀ a : List Char,
      (∀ c ∈ a, goodSlugChar c = true) → noDoubleDash a = true →
      (a ≠ [] → a.head? ≠ some '-') →
      (∀ c ∈ (if a.getLast? = some '-' then a.dropLast else a), goodSlugChar c = true) ∧
      noDoubleDash (if a.getLast? = some '-' then a.dropLast else a) = true ∧
      ((if a.getLast? = some '-' then a.dropLast else a) ≠ [] →
        (if a.getLast? = some '-' then a.dropLast else a).head? ≠ some '-' ∧
        (if a.getLast? = some '-' then a.dropLast else a).getLast? ≠ some '-') := by
    intro a hg hd hh
    by_cases hla : a.getLast? = some '-'
    · rw [if_pos hla]
      refine ⟨fun c hc => hg c (List.dropLast_subset a hc), noDoubleDash_dropLast a hd, ?_⟩
      intro hne
      refine ⟨?_, dropLast_getLast_ne a hd hla⟩
      rw [head?_dropLast a hne]
      apply hh
      intro ha0
      subst ha0
      simp at hla
    · rw [if_neg hla]
      exact ⟨hg, hd, fun hne => ⟨hh hne, hla⟩⟩
  unfold stripDashes
  by_cases hhd : l.head? = some '-'
  · rw [if_pos hhd]
    have htail_good : ∀ c ∈ l.tail, goodSlugChar c = true :=
      fun c hc => hgood c (List.tail_subset l hc)
    have htail_nd : noDoubleDash l.tail = true := by
      cases l with
      | nil => rfl
      | cons a t => exact ((noDoubleDash_cons a t).mp hnd).1
    have htail_hd : l.tail ≠ [] → l.tail.head? ≠ some '-' := by
      intro hne
      cases l with
      | nil => simp at hhd
      | cons a t =>
        simp only [List.head?_cons, Option.some.injEq] at hhd
        exact ((noDoubleDash_cons a t).mp hnd).2 hhd
    exact step l.tail htail_good htail_nd htail_hd
  · rw [if_neg hhd]
    exact step l hgood hnd (fun _ => hhd)

theorem splitChar_ne_nil (sep : Char) (l : List Char) : splitChar sep l ≠ [] := by
  cases l with
  | nil => simp [splitChar]
  | cons c r =>
    simp only [splitChar]
    cases splitChar sep r with
    | nil => simp
    | cons g gs =>
      dsimp only
      by_cases hc : c = sep
      · rw [if_pos hc]; simp
      · rw [if_neg hc]; simp

theorem splitChar_groups (l : List Char)
    (hgood : ∀ c ∈ l, goodSlugChar c = true)
    (hnd : noDoubleDash l = true)
    (hlast : l.getLast? ≠ some '-') :
    (l.head? = some '-' → ∃ gs, splitChar '-' l = [] :: gs ∧
      gs.all (fun g => !g.isEmpty && g.all isAsciiLowerDigit) = true) ∧
    (l ≠ [] → l.head? ≠ some '-' → slugRegexMatchesL l = true) := by
  induction l with
  | nil =>
    exact ⟨by simp, fun h => absurd rfl h⟩
  | cons c t ih =>
    have hgt : ∀ x ∈ t, goodSlugChar x = true :=
      fun x hx => hgood x (List.mem_cons_of_mem c hx)
    have hndt : noDoubleDash t = true := ((noDoubleDash_cons c t).mp hnd).1
    have hheadt : c = '-' → t.head? ≠ some '-' := ((noDoubleDash_cons c t).mp hnd).2
    by_cases htn : t = []
    · subst htn
      have hlast2 : c ≠ '-' := by
        simpa using hlast
      constructor
      · intro hh
        simp only [List.head?_cons, Option.some.injEq] at hh
        exact absurd hh hlast2
      · intro _ _
        have hgc := hgood c (List.mem_cons_self c [])
        simp only [goodSlugChar, Bool.or_eq_true] at hgc
        rcases hgc with hca | hcd
        · simp [slugRegexMatchesL, splitChar, hlast2, hca]
        · simp only [decide_eq_true_eq] at hcd
          exact absurd hcd hlast2
    · have hlastt : t.getLast? ≠ some '-' := by
        cases t with
        | nil => exact absurd rfl htn
        | cons b t2 =>
          rw [List.getLast?_cons_cons] at hlast
          exact hlast
      have iht := ih hgt hndt hlastt
      cases hsp : splitChar '-' t with
      | nil => exact absurd hsp (splitChar_ne_nil '-' t)
      | cons g gs =>
        by_cases hc : c = '-'
        · constructor
          · intro _
            refine ⟨g :: gs, ?_, ?_⟩
            · simp only [splitChar, hsp]
              rw [if_pos hc]
            · have hmt : slugRegexMatchesL t = true := by
                apply iht.2 htn
                exact hheadt hc
              simpa [slugRegexMatchesL, hsp] using hmt
          · intro _ hh
            exact absurd (by simp [hc]) hh
        · constructor
          · intro hh
            simp only [List.head?_cons, Option.some.injEq] at hh
            exact absurd hh hc
          · intro _ _
            have hca : isAsciiLowerDigit c = true := by
              have hgc := hgood c (List.mem_cons_self c t)
              simp only [goodSlugChar, Bool.or_eq_true] at hgc
              rcases hgc with hca | hcd
              · exact hca
              · simp only [decide_eq_true_eq] at hcd
                exact absurd hcd hc
            have hsplit : splitChar '-' (c :: t) = (c :: g) :: gs := by
              simp only [splitChar, hsp]
              rw [if_neg hc]
            by_cases hth : t.head? = some '-'
            · obtain ⟨gs2, hgs2, hall2⟩ := iht.1 hth
              rw [hsp] at hgs2
              have hg0 : g = [] := (List.cons.inj hgs2).1
              have hgs0 : gs = gs2 := (List.cons.inj hgs2).2
              subst hg0
              subst hgs0
              simp [slugRegexMatchesL, hsplit, hca, hall2]
            · have hmt : slugRegexMatchesL t = true := iht.2 htn hth
              rw [slugRegexMatchesL, hsp] at hmt
              simp only [List.all_cons, Bool.and_eq_true] at hmt
              simp [slugRegexMatchesL, hsplit, hca, hmt.1.2, hmt.2]

theorem slugCoreL_props (l : List Char) (h : ∀ c ∈ l, c.toNat < 128) :
    (∀ c ∈ slugCoreL l, goodSlugChar c = true) ∧
    noDoubleDash (slugCoreL l) = true ∧
    (slugCoreL l ≠ [] →
      (slugCoreL l).head? ≠ some '-' ∧ (slugCoreL l).getLast? ≠ some '-') := by
  have hmap : ∀ c ∈ l.map jsToLower, c.toNat < 128 ∧ nfdChar c = [c] ∧
      (isLN c = true → isAsciiLowerDigit c = true) := by
    intro c hc
    obtain ⟨d, hd, rfl⟩ := List.mem_map.mp hc
    exact ascii_char_facts_of d (h d hd)
  have hnfd : nfd (l.map jsToLower) = l.map jsToLower :=
    nfd_id_of _ (fun c hc => (hmap c hc).2.1)
  have hp1 := replRun_noLN_chars (l.map jsToLower) (fun c hc => (hmap c hc).2.2)
  have hp1d := replRun_noDD (fun c => !(isLN c)) (by decide) (l.map jsToLower)
  have hcollapse : replRun (fun c => c = '-') '-'
      (replRun (fun c => !(isLN c)) '-' (l.map jsToLower)) =
      replRun (fun c => !(isLN c)) '-' (l.map jsToLower) :=
    (collapse_id _).1 hp1d.1
  have hstrip := stripDashes_props (replRun (fun c => !(isLN c)) '-' (l.map jsToLower))
    hp1.1 hp1d.1
  unfold slugCoreL
  rw [hnfd, hcollapse]
  exact hstrip

theorem entryTitlePart_shape (t : List Char) (h : ∀ c ∈ t, c.toNat < 128) :
    (entryTitlePartL t).length ≤ 48 ∧
    (entryTitlePartL t = "entry".data ∨
     slugRegexMatchesL (entryTitlePartL t) = true ∨
     ((entryTitlePartL t).getLast? = some '-' ∧
      slugRegexMatchesL ((entryTitlePartL t).dropLast) = true)) := by
  obtain ⟨hg, hd, hne⟩ := slugCoreL_props t h
  unfold entryTitlePartL
  by_cases hemp : ((slugCoreL t).take 48).isEmpty
  · rw [if_pos hemp]
    exact ⟨by decide, Or.inl rfl⟩
  · rw [if_neg hemp]
    have hne2 : (slugCoreL t).take 48 ≠ [] := by
      intro h0
      rw [h0] at hemp
      simp at hemp
    have hcorene : slugCoreL t ≠ [] := by
      intro h0
      rw [h0] at hne2
      simp at hne2
    obtain ⟨hhd, hlast⟩ := hne hcorene
    have hgood48 : ∀ c ∈ (slugCoreL t).take 48, goodSlugChar c = true :=
      fun c hc => hg c (List.take_subset 48 _ hc)
    have hnd48 : noDoubleDash ((slugCoreL t).take 48) = true := noDoubleDash_take 48 _ hd
    have hhd48 : ((slugCoreL t).take 48).head? ≠ some '-' := by
      rw [head?_take 48 _ (by omega)]
      exact hhd
    constructor
    · simp [List.length_take]
    · by_cases hl48 : ((slugCoreL t).take 48).getLast? = some '-'
      · refine Or.inr (Or.inr ⟨hl48, ?_⟩)
        have hgoodD : ∀ c ∈ ((slugCoreL t).take 48).dropLast, goodSlugChar c = true :=
          fun c hc => hgood48 c (List.dropLast_subset _ hc)
        have hndD := noDoubleDash_dropLast _ hnd48
        have hlastD := dropLast_getLast_ne _ hnd48 hl48
        have hneD : ((slugCoreL t).take 48).dropLast ≠ [] := by
          intro h0
          cases hx : (slugCoreL t).take 48 with
          | nil => exact hne2 hx
          | cons x xs =>
            cases xs with
            | nil =>
              rw [hx] at hl48 hhd48
              simp only [List.getLast?_singleton, Option.some.injEq] at hl48
              exact hhd48 (by simp [hl48])
            | cons y ys =>
              rw [hx] at h0
              rw [List.dropLast_cons_of_ne_nil (by simp : y :: ys ≠ [])] at h0
              simp at h0
        have hhdD : ((slugCoreL t).take 48).dropLast.head? ≠ some '-' := by
          rw [head?_dropLast _ hneD]
          exact hhd48
        exact (splitChar_groups _ hgoodD hndD hlastD).2 hneD hhdD
      · exact Or.inr (Or.inl ((splitChar_groups _ hgood48 hnd48 hl48).2 hne2 hhd48))

/-- C7 amended: for ASCII titles the slugify output matches the
anchored regex of lowercase alphanumerics separated by single
hyphens, or is the notebooklm-source fallback; the entry-id title
part is the slug truncated to at most 48 characters (so it matches
the regex except that truncation may leave one trailing hyphen) or
the entry fallback, and createEntryId is the zero-padded index, a
hyphen, then that part.  Non-ASCII letters and digits are preserved
by the Letter and Number classes, so the ASCII regex can fail on
them (see the counterexample). -/
theorem slug_allocator_shape (t : String) (i : Nat)
    (h : ∀ c ∈ t.data, c.toNat < 128) :
    (slugRegexMatches (slugify t) = true ∨ slugify t = "notebooklm-source") ∧
    createEntryId i t = String.mk (padIndexL i ++ '-' :: entryTitlePartL t.data) ∧
    (entryTitlePartL t.data).length ≤ 48 ∧
    (entryTitlePartL t.data = "entry".data ∨
     slugRegexMatchesL (entryTitlePartL t.data) = true ∨
     ((entryTitlePartL t.data).getLast? = some '-' ∧
      slugRegexMatchesL ((entryTitlePartL t.data).dropLast) = true)) := by
  obtain ⟨hg, hd, hne⟩ := slugCoreL_props t.data h
  obtain ⟨hlen, hshape⟩ := entryTitlePart_shape t.data h
  refine ⟨?_, rfl, hlen, hshape⟩
  unfold slugify
  dsimp only
  by_cases hemp : (slugCoreL t.data).length > 0
  · rw [if_pos hemp]
    have hne2 : slugCoreL t.data ≠ [] := by
      intro h0
      rw [h0] at hemp
      simp at hemp
    obtain ⟨hhd, hlast⟩ := hne hne2
    exact Or.inl ((splitChar_groups _ hg hd hlast).2 hne2 hhd)
  · rw [if_neg hemp]
    exact Or.inr rfl

theorem slug_allocator_shape_witness :
    slugRegexMatches (slugify "My Story Title") = true ∧
    createEntryId 5 "My Story Title" = "05-my-story-title" ∧
    slugify "!!!" = "notebooklm-source" ∧
    createEntryId 12 "" = "12-entry" := by
  have h1 := (slug_allocator_shape "My Story Title" 5 (by decide)).1
  refine ⟨?_, by decide, by decide, by decide⟩
  rcases h1 with h | h
  · exact h
  · exact absurd h (by decide)

/-- C7 counterexample: the slug pipeline keeps every Unicode Letter
and Number, so the Greek letter alpha survives unchanged: the output
is neither a match of the ASCII regex nor the fallback token. -/
theorem slug_regex_cex :
    slugify "α" = "α" ∧ slugRegexMatches "α" = false ∧
    slugify "α" ≠ "notebooklm-source" := by
  refine ⟨by decide, by decide, by decide⟩

end NBLM
